import Mathlib

/-!
# go-mysql-backup-example: a shallow embedding

The program (`go-mysql-backup-example.go`) reads two tables from a list of
MySQL shards, writes them to `users.csv` and `sales.csv`, and packs both files
into a timestamped `tar.gz`.

The embedding has four layers.

* Rendering: `strconv.Itoa`, `strconv.FormatFloat(_, 'f', 6, 64)` and
  `time.Format` are library routines; they are modelled exactly on integers
  (`float64` is a sign, a mantissa and a binary exponent, or an infinity, or
  NaN).
* `usersFetcher` / `ordersFetcher`: goroutines, the `sync.WaitGroup` and the
  unbuffered channel are a small-step machine; a schedule is a list of
  actions, and "every interleaving" is "every schedule".
* The two consumer loops of `main` are folds over the received records; the
  `csv.Writer` keeps the bytes it was handed, with the buffer of the
  `bufio.Writer` inside it deciding which call sees a failing disk, and the
  file holds the bytes the disk took.
* `addFileToArchive` and the tail of `main` are functions of a description of
  the outside world (which system calls fail, what the clock reads).
-/

namespace GoMysqlBackup

/-! ## Records -/

/-- A `float64` value: a finite `±mant·2^exp`, an infinity, or NaN. -/
inductive Float64 where
  | finite (neg : Bool) (mant : Nat) (exp : Int)
  | inf (neg : Bool)
  | nan
  deriving DecidableEq

/-- Source `type user struct { DBID int; ID int; Name string }`. -/
structure user where
  DBID : Int
  ID : Int
  Name : String
  deriving DecidableEq

/-- Source `type order struct { DBID, ID, UserID int; OrderAmount float64 }`. -/
structure order where
  DBID : Int
  ID : Int
  UserID : Int
  OrderAmount : Float64
  deriving DecidableEq

/-- Source `type csvLine []string`. -/
abbrev csvLine := List String

/-! ## `strconv.Itoa` -/

/-- The decimal digits of `n`, least significant first; `fuel` bounds the
loop `for u >= 10 { ... u = u / 10 }` of the library routine. -/
def digitsLE : Nat → Nat → List Nat
  | 0, _ => []
  | fuel + 1, n => if n < 10 then [n] else (n % 10) :: digitsLE fuel (n / 10)

/-- The decimal digits of `n`, most significant first (`[0]` for zero). -/
def decDigits (n : Nat) : List Nat := (digitsLE (n + 1) n).reverse

/-- The character of one decimal digit, `'0' + d`. -/
def digitChar (d : Nat) : Char := Char.ofNat (48 + d)

/-- The decimal numeral of a natural number. -/
def natStr (n : Nat) : String := String.mk ((decDigits n).map digitChar)

/-- The library `strconv.Itoa`: decimal, with a leading `-` for negatives. -/
def Itoa (n : Int) : String :=
  match n with
  | Int.ofNat k => natStr k
  | Int.negSucc k => "-" ++ natStr (k + 1)

/-- The value of a list of decimal digits, most significant first. -/
def digitsValue (ds : List Nat) : Nat := ds.foldl (fun acc d => 10 * acc + d) 0

/-! ## `strconv.FormatFloat(x, 'f', 6, 64)` -/

/-- The magnitude `mant·2^exp` scaled by `10^6` and rounded to the nearest
integer, ties to even (the library rounds the exact decimal expansion). -/
def scaledMicros (mant : Nat) (exp : Int) : Nat :=
  match exp with
  | Int.ofNat e => mant * 2 ^ e * 1000000
  | Int.negSucc e =>
    let den := 2 ^ (e + 1)
    let num := mant * 1000000
    let q := num / den
    let r := num % den
    if 2 * r > den ∨ (2 * r = den ∧ q % 2 = 1) then q + 1 else q

/-- Exactly six decimal digits of `n % 10^6`, zero padded on the left. -/
def sixDigits (n : Nat) : List Char :=
  [digitChar (n / 100000 % 10), digitChar (n / 10000 % 10), digitChar (n / 1000 % 10),
   digitChar (n / 100 % 10), digitChar (n / 10 % 10), digitChar (n % 10)]

/-- The library `strconv.FormatFloat(x, 'f', 6, 64)`. -/
def FormatFloat6 (x : Float64) : String :=
  match x with
  | Float64.nan => "NaN"
  | Float64.inf false => "+Inf"
  | Float64.inf true => "-Inf"
  | Float64.finite neg mant exp =>
    let q := scaledMicros mant exp
    (if neg then "-" else "") ++ natStr (q / 1000000) ++ "." ++ String.mk (sixDigits q)

/-! ## The rows written by the two consumer loops of `main` -/

/-- The `csvLine{...}` literal of the users loop (source lines 178-182). -/
def userLine (u : user) : csvLine := [Itoa u.DBID, Itoa u.ID, u.Name]

/-- The `csvLine{...}` literal of the orders loop (source lines 199-204). -/
def orderLine (o : order) : csvLine :=
  [Itoa o.DBID, Itoa o.ID, Itoa o.UserID, FormatFloat6 o.OrderAmount]

/-! ## `time.Time.Format` -/

/-- The calendar fields of a `time.Time` read by `Format`. -/
structure Time where
  year : Int
  month : Nat
  day : Nat
  hour : Nat
  minute : Nat
  second : Nat
  deriving DecidableEq

/-- The fields are those of a real instant: month 1-12, day 1-31, hour 0-23,
minute and second 0-59. -/
def Time.valid (t : Time) : Prop :=
  1 ≤ t.month ∧ t.month ≤ 12 ∧ 1 ≤ t.day ∧ t.day ≤ 31 ∧
  t.hour ≤ 23 ∧ t.minute ≤ 59 ∧ t.second ≤ 59

instance (t : Time) : Decidable t.valid := by unfold Time.valid; infer_instance

/-- The library `appendInt(b, x, width)`: decimal, zero padded on the left to
at least `width` digits, `-` first for a negative number. -/
def appendInt (x : Int) (width : Nat) : List Char :=
  let ds := decDigits x.natAbs
  (if x < 0 then ['-'] else []) ++ List.replicate (width - ds.length) '0' ++ ds.map digitChar

/-- The pieces of a layout string. `unmodelled` stands for every reference
token whose rendering needs more than the six calendar fields (month and
weekday names, zones, AM/PM, padded days, day of year, fractional seconds). -/
inductive Chunk where
  | lit (c : Char)
  | stdLongYear | stdYear
  | stdZeroMonth | stdNumMonth
  | stdZeroDay | stdDay
  | stdHour | stdHour12 | stdZeroHour12
  | stdMinute | stdZeroMinute
  | stdSecond | stdZeroSecond
  | unmodelled
  deriving DecidableEq

/-- The library `startsWithLowerCase`. -/
def startsWithLowerCase (l : List Char) : Bool :=
  match l with
  | [] => false
  | c :: _ => decide ('a' ≤ c ∧ c ≤ 'z')

/-- The library `nextStdChunk` at the head of the layout: the reference token
that starts here and the number of characters it takes, or `none` when the
first character is literal text. -/
def stdAt (l : List Char) : Option (Chunk × Nat) :=
  let pre (s : String) : Bool := s.toList.isPrefixOf l
  match l with
  | [] => none
  | 'J' :: _ =>
    if pre "January" then some (Chunk.unmodelled, 7)
    else if pre "Jan" && !startsWithLowerCase (l.drop 3) then some (Chunk.unmodelled, 3)
    else none
  | 'M' :: _ =>
    if pre "Monday" then some (Chunk.unmodelled, 6)
    else if pre "Mon" && !startsWithLowerCase (l.drop 3) then some (Chunk.unmodelled, 3)
    else if pre "MST" then some (Chunk.unmodelled, 3)
    else none
  | '0' :: _ =>
    if pre "01" then some (Chunk.stdZeroMonth, 2)
    else if pre "02" then some (Chunk.stdZeroDay, 2)
    else if pre "03" then some (Chunk.stdZeroHour12, 2)
    else if pre "04" then some (Chunk.stdZeroMinute, 2)
    else if pre "05" then some (Chunk.stdZeroSecond, 2)
    else if pre "06" then some (Chunk.stdYear, 2)
    else if pre "002" then some (Chunk.unmodelled, 3)
    else none
  | '1' :: _ => if pre "15" then some (Chunk.stdHour, 2) else some (Chunk.stdNumMonth, 1)
  | '2' :: _ => if pre "2006" then some (Chunk.stdLongYear, 4) else some (Chunk.stdDay, 1)
  | '_' :: _ =>
    if pre "_2006" then none
    else if pre "_2" || pre "__2" then some (Chunk.unmodelled, 2)
    else none
  | '3' :: _ => some (Chunk.stdHour12, 1)
  | '4' :: _ => some (Chunk.stdMinute, 1)
  | '5' :: _ => some (Chunk.stdSecond, 1)
  | 'P' :: _ => if pre "PM" then some (Chunk.unmodelled, 2) else none
  | 'p' :: _ => if pre "pm" then some (Chunk.unmodelled, 2) else none
  | '-' :: _ => if pre "-07" then some (Chunk.unmodelled, 3) else none
  | 'Z' :: _ => if pre "Z07" then some (Chunk.unmodelled, 3) else none
  | '.' :: d :: _ => if d = '0' ∨ d = '9' then some (Chunk.unmodelled, 2) else none
  | ',' :: d :: _ => if d = '0' ∨ d = '9' then some (Chunk.unmodelled, 2) else none
  | _ => none

/-- The layout cut into chunks, left to right (`fuel` bounds the scan by the
layout's length). -/
def layoutChunks : Nat → List Char → List Chunk
  | 0, _ => []
  | _ + 1, [] => []
  | fuel + 1, c :: rest =>
    match stdAt (c :: rest) with
    | some (tok, n) => tok :: layoutChunks fuel (rest.drop (n - 1))
    | none => Chunk.lit c :: layoutChunks fuel rest

/-- The text one chunk stands for at time `t`; `none` for an unmodelled token. -/
def Chunk.render (t : Time) : Chunk → Option (List Char)
  | Chunk.lit c => some [c]
  | Chunk.stdLongYear => some (appendInt t.year 4)
  | Chunk.stdYear => some (appendInt (t.year.natAbs % 100 : Nat) 2)
  | Chunk.stdZeroMonth => some (appendInt t.month 2)
  | Chunk.stdNumMonth => some (appendInt t.month 0)
  | Chunk.stdZeroDay => some (appendInt t.day 2)
  | Chunk.stdDay => some (appendInt t.day 0)
  | Chunk.stdHour => some (appendInt t.hour 2)
  | Chunk.stdHour12 => some (appendInt (if t.hour % 12 = 0 then 12 else t.hour % 12 : Nat) 0)
  | Chunk.stdZeroHour12 => some (appendInt (if t.hour % 12 = 0 then 12 else t.hour % 12 : Nat) 2)
  | Chunk.stdMinute => some (appendInt t.minute 0)
  | Chunk.stdZeroMinute => some (appendInt t.minute 2)
  | Chunk.stdSecond => some (appendInt t.second 0)
  | Chunk.stdZeroSecond => some (appendInt t.second 2)
  | Chunk.unmodelled => none

/-- All chunks rendered and joined. -/
def renderChunks (t : Time) : List Chunk → Option (List Char)
  | [] => some []
  | c :: cs =>
    match c.render t, renderChunks t cs with
    | some a, some b => some (a ++ b)
    | _, _ => none

/-- The library `Time.Format(layout)`, for layouts whose tokens are the
numeric date and clock fields. -/
def Time.Format (t : Time) (layout : String) : Option String :=
  (renderChunks t (layoutChunks layout.length layout.toList)).map String.mk

/-- The layout literal of source line 219. -/
def archiveLayout : String := "backup-2006-01-02-15-04-05.tar.gz"

/-! ## `usersFetcher` / `ordersFetcher` as a small-step machine

Both functions have the same shape and differ in the query text and in the
record type, so one machine, generic in the type `ρ` of a scanned row, embeds
both. -/

/-- What one shard answers to one query of the program. -/
structure Shard (ρ : Type) where
  /-- The call `sql.Open("mysql", dsn)` returns an error. -/
  openErr : Bool
  /-- The call `handle.Query(...)` returns an error. -/
  queryErr : Bool
  /-- One entry per `rows.Next()` that returns true, in result order: the row
  that `rows.Scan` decodes, or `none` when `rows.Scan` returns an error. -/
  rows : List (Option ρ)
  /-- The iteration stopped on an error, so `rows.Next()` returned false before
  the end of the result set and `rows.Err()` is not nil. -/
  iterErr : Bool
  deriving DecidableEq

/-- What the goroutines of one fetcher do that another goroutine can see. -/
inductive Event (ρ : Type) where
  /-- The statement `users <- u` of the fetcher goroutine `DBID` completed. -/
  | send (DBID : Nat) (row : ρ)
  /-- The fetcher goroutine `DBID` ran `handle.Close(); fetchers.Done()`. -/
  | done (DBID : Nat)
  /-- The statement `close(users)` ran. -/
  | close
  /-- The consumer's `for u := range users` loop ended. -/
  | rangeEnd
  deriving DecidableEq

/-- The state of one fetcher pipeline: the loop of `usersFetcher`, the
goroutines it started, its `WaitGroup`, its channel and the consumer loop. -/
structure Pipe (ρ : Type) where
  /-- The number of iterations of `for id, dsn := range dsns` completed. -/
  launched : Nat
  /-- The rows the goroutine with each `DBID` has not yet read. -/
  pending : List (List (Option ρ))
  /-- The goroutine with each `DBID` has not yet called `fetchers.Done()`. -/
  live : List Bool
  /-- The counter of the `WaitGroup` named `fetchers`. -/
  wg : Nat
  /-- The channel is closed. -/
  closed : Bool
  /-- The goroutine `fetchers.Wait(); close(users)` has finished. -/
  closerDone : Bool
  /-- The consumer loop has ended. -/
  consumerDone : Bool
  /-- The call `log.Fatalln` was made (the process exits with status 1). -/
  fatal : Bool
  /-- A run-time panic: a send on a closed channel, a second `close`, or a
  negative `WaitGroup` counter. -/
  panicked : Bool
  /-- The events so far, the newest first. -/
  trace : List (Event ρ)
  deriving DecidableEq

/-- The state on entry to `usersFetcher`. -/
def Pipe.init (ρ : Type) : Pipe ρ :=
  { launched := 0, pending := [], live := [], wg := 0, closed := false, closerDone := false,
    consumerDone := false, fatal := false, panicked := false, trace := [] }

/-- Who takes the next step. -/
inductive Action where
  /-- The calling goroutine runs one iteration of `for id, dsn := range dsns`. -/
  | launch
  /-- The fetcher goroutine `DBID` runs one iteration of `for rows.Next()`, or
  leaves the loop. -/
  | fetcher (DBID : Nat)
  /-- The goroutine `fetchers.Wait(); close(users)` runs. -/
  | closer
  /-- The consumer's `range` sees the closed channel. -/
  | consumerEnd
  deriving DecidableEq

/-- One step of the pipeline over the shard list `shards`; `none` when the
chosen goroutine does not exist, has finished, or is blocked. The channel is
unbuffered (`make(chan user)`), so a send completes together with the
consumer's receive, and the consumer exists once the function has returned. -/
def Pipe.step {ρ : Type} (shards : List (Shard ρ)) (s : Pipe ρ) : Action → Option (Pipe ρ)
  | Action.launch =>
    if s.fatal ∨ s.panicked then none else
    match shards[s.launched]? with
    | none => none
    | some sh =>
      if sh.openErr ∨ sh.queryErr then some { s with fatal := true }
      else some { s with launched := s.launched + 1, pending := s.pending ++ [sh.rows],
                         live := s.live ++ [true], wg := s.wg + 1 }
  | Action.fetcher i =>
    if s.fatal ∨ s.panicked then none else
    if s.live[i]? ≠ some true then none else
    match s.pending[i]? with
    | none => none
    | some [] =>
      if s.wg = 0 then some { s with panicked := true }
      else some { s with live := s.live.set i false, wg := s.wg - 1,
                         trace := Event.done i :: s.trace }
    | some (none :: _) => some { s with fatal := true }
    | some (some r :: rest) =>
      if s.closed then some { s with panicked := true, trace := Event.send i r :: s.trace }
      else if s.launched = shards.length ∧ s.consumerDone = false then
        some { s with pending := s.pending.set i rest, trace := Event.send i r :: s.trace }
      else none
  | Action.closer =>
    if s.fatal ∨ s.panicked then none else
    if s.launched = shards.length ∧ s.closerDone = false ∧ s.wg = 0 then
      if s.closed then some { s with panicked := true, trace := Event.close :: s.trace }
      else some { s with closed := true, closerDone := true, trace := Event.close :: s.trace }
    else none
  | Action.consumerEnd =>
    if s.fatal ∨ s.panicked then none else
    if s.launched = shards.length ∧ s.closed = true ∧ s.consumerDone = false then
      some { s with consumerDone := true, trace := Event.rangeEnd :: s.trace }
    else none

/-- A schedule run from state `s`; `none` when it asks for a step that cannot
be taken. -/
def Pipe.exec {ρ : Type} (shards : List (Shard ρ)) (s : Pipe ρ) : List Action → Option (Pipe ρ)
  | [] => some s
  | a :: as =>
    match s.step shards a with
    | none => none
    | some s1 => Pipe.exec shards s1 as

/-- The records of a trace in the order they were sent (oldest first), each
with the `DBID` its goroutine was started with. -/
def sentOf {ρ : Type} : List (Event ρ) → List (Nat × ρ)
  | [] => []
  | Event.send i r :: tr => sentOf tr ++ [(i, r)]
  | _ :: tr => sentOf tr

/-- The records the consumer loop has received, in order. -/
def Pipe.received {ρ : Type} (s : Pipe ρ) : List (Nat × ρ) := sentOf s.trace

/-- The event is a `close(users)`. -/
def Event.isClose {ρ : Type} : Event ρ → Bool
  | Event.close => true
  | _ => false

/-- The event is a completed send. -/
def Event.isSend {ρ : Type} : Event ρ → Bool
  | Event.send _ _ => true
  | _ => false

/-- The event is the end of the consumer loop. -/
def Event.isRangeEnd {ρ : Type} : Event ρ → Bool
  | Event.rangeEnd => true
  | _ => false

/-- The event is the `fetchers.Done()` of some goroutine. -/
def Event.isDone {ρ : Type} : Event ρ → Bool
  | Event.done _ => true
  | _ => false

/-- The number of times the channel was closed. -/
def closeCount {ρ : Type} (tr : List (Event ρ)) : Nat := tr.countP Event.isClose

/-- No send is newer than a close or than the end of the consumer loop (the
trace is newest first). -/
def sendsFirst {ρ : Type} : List (Event ρ) → Bool
  | [] => true
  | e :: tr => (!e.isSend || !tr.any (fun x => x.isClose || x.isRangeEnd)) && sendsFirst tr

/-- No `fetchers.Done()` is newer than a close: the channel is closed after
the last fetcher has finished. -/
def donesFirst {ρ : Type} : List (Event ρ) → Bool
  | [] => true
  | e :: tr => (!e.isDone || !tr.any Event.isClose) && donesFirst tr

/-! ## The two fetchers -/

/-- The columns `rows.Scan(&u.ID, &u.Name)` decodes. -/
structure UserRow where
  ID : Int
  Name : String
  deriving DecidableEq

/-- The columns `rows.Scan(&o.ID, &o.UserID, &o.OrderAmount)` decodes. -/
structure OrderRow where
  ID : Int
  UserID : Int
  OrderAmount : Float64
  deriving DecidableEq

/-- The record a users goroutine sends: `u := user{DBID: DBID}` filled by
`rows.Scan(&u.ID, &u.Name)`. -/
def mkUser (p : Nat × UserRow) : user := { DBID := p.1, ID := p.2.ID, Name := p.2.Name }

/-- The record an orders goroutine sends: `o := order{DBID: DBID}` filled by
`rows.Scan(&o.ID, &o.UserID, &o.OrderAmount)`. -/
def mkOrder (p : Nat × OrderRow) : order :=
  { DBID := p.1, ID := p.2.ID, UserID := p.2.UserID, OrderAmount := p.2.OrderAmount }

/-- One entry of `config.Databases` with what the server behind it answers to
the two queries of the program. -/
structure Database where
  dsn : String
  /-- The answer to `SELECT user_id, name FROM users`. -/
  users : Shard UserRow
  /-- The answer to `SELECT order_id, user_id, order_amount FROM sales`. -/
  sales : Shard OrderRow
  deriving DecidableEq

/-- The shard answers `usersFetcher` works on. -/
def usersShards (dbs : List Database) : List (Shard UserRow) := dbs.map Database.users

/-- The shard answers `ordersFetcher` works on. -/
def ordersShards (dbs : List Database) : List (Shard OrderRow) := dbs.map Database.sales

/-! ## `encoding/csv` and the consumer loops -/

/-- The library `unicode.IsSpace`. -/
def isSpaceRune (c : Char) : Bool :=
  let n := c.toNat
  (9 ≤ n && n ≤ 13) || n = 32 || n = 0x85 || n = 0xA0 || n = 0x1680 ||
  (0x2000 ≤ n && n ≤ 0x200a) || n = 0x2028 || n = 0x2029 || n = 0x202f || n = 0x205f ||
  n = 0x3000

/-- The library `(*csv.Writer).fieldNeedsQuotes`, for the comma separator. -/
def fieldNeedsQuotes (field : String) : Bool :=
  if field = "" then false
  else if field = "\\." then true
  else if field.toList.any (fun c => c = '\n' || c = '\r' || c = '"' || c = ',') then true
  else match field.toList with
    | [] => false
    | c :: _ => isSpaceRune c

/-- One field as `(*csv.Writer).Write` emits it (`UseCRLF` is false). -/
def csvField (field : String) : List Char :=
  if fieldNeedsQuotes field then
    ['"'] ++ (field.toList.map (fun c => if c = '"' then ['"', '"'] else [c])).flatten ++ ['"']
  else field.toList

/-- One record as `(*csv.Writer).Write` emits it: the fields separated by
commas, then a line feed. -/
def csvRecord (line : csvLine) : List Char :=
  List.intercalate [','] (line.map csvField) ++ ['\n']

/-- The UTF-8 encoding of one character. -/
def utf8EncodeChar (c : Char) : List Nat :=
  let v := c.toNat
  if v ≤ 0x7f then [v]
  else if v ≤ 0x7ff then [0xc0 + v / 64, 0x80 + v % 64]
  else if v ≤ 0xffff then [0xe0 + v / 4096, 0x80 + v / 64 % 64, 0x80 + v % 64]
  else [0xf0 + v / 262144, 0x80 + v / 4096 % 64, 0x80 + v / 64 % 64, 0x80 + v % 64]

/-- The bytes of a text. -/
def utf8Bytes (cs : List Char) : List Nat := (cs.map utf8EncodeChar).flatten

/-- The bytes `(*csv.Writer).Write` hands to its `bufio.Writer` for one
record. -/
def recordBytes (line : csvLine) : List Nat := utf8Bytes (csvRecord line)

/-- The bytes of the records `rows`, one after the other: a file that holds
exactly these records. -/
def csvBytes (rows : List csvLine) : List Nat := (rows.map recordBytes).flatten

/-- The library constant `defaultBufSize` of `bufio`. -/
def bufSize : Nat := 4096

/-- A `csv.Writer` on an output file, with the `bufio.Writer` inside it. -/
structure CsvWriter where
  /-- The records for which `Write` returned `nil`. -/
  rows : List csvLine
  /-- The bytes handed to the `bufio.Writer` so far. -/
  stream : List Nat
  /-- The `bufio.Writer` has recorded an error; `(*csv.Writer).Error()` would
  return it. -/
  err : Bool
  deriving DecidableEq

/-- The library `csv.NewWriter(file)` on the file just truncated. -/
def csv_NewWriter : CsvWriter := { rows := [], stream := [], err := false }

/-- The file takes no byte beyond the position `pos`. `limit = some b` says
the file takes `b` bytes and every write beyond them fails (a full disk);
`none` says it takes everything. -/
def beyondLimit (limit : Option Nat) (pos : Nat) : Bool :=
  match limit with
  | none => false
  | some b => decide (b < pos)

/-- The library `(*csv.Writer).Write`. The bytes of the record go to the
buffer of `bufSize` bytes; each time the buffer is full and a further byte
arrives, the buffer is flushed to the file. So the call flushes at every
multiple `B > 0` of `bufSize` with `pos ≤ B < pos + n`, where `pos` bytes were
handed over before and the record has `n` bytes, and the flush at `B` fails
when the file does not take `B` bytes. The call returns an error when the
writer holds one already or a flush inside it fails; otherwise it returns
`nil`, also when the bytes it buffered will never reach the file. (The
shortcut of later library versions, which hands a text longer than the empty
buffer straight to the file, is left out.) -/
def CsvWriter.Write (limit : Option Nat) (w : CsvWriter) (line : csvLine) : CsvWriter :=
  if w.err then w
  else
    let stream := w.stream ++ recordBytes line
    let last := bufSize * ((stream.length - 1) / bufSize)
    if w.stream.length ≤ last ∧ 0 < last ∧ beyondLimit limit last = true then
      { w with stream := stream, err := true }
    else { rows := w.rows ++ [line], stream := stream, err := false }

/-- The library `(*csv.Writer).Flush`: what is left in the buffer goes to the
file; a failure is recorded in the writer and not returned. -/
def CsvWriter.Flush (limit : Option Nat) (w : CsvWriter) : CsvWriter :=
  if w.err then w
  else if beyondLimit limit w.stream.length then { w with err := true }
  else w

/-- The bytes in the file once the writer is flushed: the stream, cut where
the file stopped taking bytes; the cut can fall inside a record. -/
def CsvWriter.disk (limit : Option Nat) (w : CsvWriter) : List Nat :=
  match limit with
  | none => w.stream
  | some b => w.stream.take b

/-- The state of one consumer goroutine of `main`. -/
structure Sink where
  count : Nat
  writer : CsvWriter
  deriving DecidableEq

/-- The users consumer loop (source lines 176-183) run over the records it
receives: `usersCount += 1`, then `usersCsv.Write`, whose result is dropped. -/
def usersLoop (limit : Option Nat) (us : List user) : Sink :=
  us.foldl (fun st u => { count := st.count + 1, writer := st.writer.Write limit (userLine u) })
    { count := 0, writer := csv_NewWriter }

/-- The orders consumer loop (source lines 197-205) run over the records it
receives: `ordersCount++`, then `ordersCsv.Write`, whose result is dropped. -/
def ordersLoop (limit : Option Nat) (os : List order) : Sink :=
  os.foldl (fun st o => { count := st.count + 1, writer := st.writer.Write limit (orderLine o) })
    { count := 0, writer := csv_NewWriter }

/-! ## `addFileToArchive` -/

/-- A path: a string given from outside, or the result of
`path.Join(dir, elem)` for a plain file name `elem`. -/
inductive Path where
  | given (s : String)
  | join (dir : Path) (elem : String)
  deriving DecidableEq

/-- The fields of `tar.Header` the program sets. `ModTime` is an instant in
nanoseconds since the Unix epoch. -/
structure Header where
  Name : Path
  Size : Nat
  Mode : Nat
  ModTime : Int
  deriving DecidableEq

/-- The library `t.Round(time.Second)`: the nearest whole second, a half
second going up. -/
def roundSecond (ns : Int) : Int := (ns + 500000000) / 1000000000 * 1000000000

/-- The header as `(*tar.Writer).WriteHeader` stores it when the program has
chosen no format: the modification time is rounded to the second. -/
def storedHeader (h : Header) : Header := { h with ModTime := roundSecond h.ModTime }

/-- One entry of the tar stream: the header as stored and the bytes written
after it. -/
structure TarEntry where
  header : Header
  data : List Nat
  deriving DecidableEq

/-- The operating system and the tar writer as `addFileToArchive` meets them. -/
structure FileSys where
  /-- The call `os.Open(path)` returns an error. -/
  openErr : Path → Bool
  /-- The call `file.Stat()` returns an error. -/
  statErr : Path → Bool
  /-- The mode bits `stat.Mode()` reports. -/
  mode : Path → Nat
  /-- The time `stat.ModTime()` reports, in nanoseconds since the Unix epoch. -/
  modTime : Path → Int
  /-- The bytes of the file. -/
  content : Path → List Nat
  /-- The call `tw.WriteHeader(header)` returns an error. -/
  headerErr : Path → Bool
  /-- The call `io.Copy(tw, file)` returns an error after that many bytes. -/
  copyErr : Path → Option Nat

/-- The errors `addFileToArchive` returns. -/
inductive ArchiveErr where
  | open
  | writeHeader
  | copy
  deriving DecidableEq

/-- Source `func addFileToArchive(tw *tar.Writer, path string) error`: the
entries of the tar writer afterwards, and the error returned (`none` for
`nil`). -/
def addFileToArchive (sys : FileSys) (tw : List TarEntry) (path : Path) :
    List TarEntry × Option ArchiveErr :=
  if sys.openErr path then (tw, some ArchiveErr.open)
  else if sys.statErr path = false then
    let header : Header :=
      { Name := path, Size := (sys.content path).length, Mode := sys.mode path,
        ModTime := sys.modTime path }
    if sys.headerErr path then (tw, some ArchiveErr.writeHeader)
    else match sys.copyErr path with
      | some k => (tw ++ [⟨storedHeader header, (sys.content path).take k⟩],
                   some ArchiveErr.copy)
      | none => (tw ++ [⟨storedHeader header, sys.content path⟩], none)
  else (tw, none)

/-! ## `main` -/

/-- The point of the run at which the clock is read. -/
inductive Stage where
  | runStart
  | archiving
  deriving DecidableEq

/-- Everything outside the program that one run of `main` meets. -/
structure World where
  /-- The field `BackupPath` of the configuration file. -/
  configBackupPath : String
  /-- The value of the `-backup` flag. -/
  backupFlag : String
  /-- The field `Databases` of the configuration file, with the servers. -/
  databases : List Database
  /-- The call `os.MkdirAll(config.BackupPath, 0777)` returns an error. -/
  mkdirErr : Bool
  /-- The call `os.OpenFile(usersCsvPath, ...)` returns an error. -/
  usersOpenErr : Bool
  /-- The call `os.OpenFile(ordersCsvPath, ...)` returns an error. -/
  ordersOpenErr : Bool
  /-- The users file takes only that many bytes (`none`: all of them). -/
  usersLimit : Option Nat
  /-- The orders file takes only that many bytes (`none`: all of them). -/
  ordersLimit : Option Nat
  /-- What `time.Now()` returns at each stage of the run. -/
  now : Stage → Time
  /-- The call `os.Create(archivePath)` returns an error. -/
  createErr : Bool
  /-- The deferred call `archiveTar.Close()` returns an error. -/
  tarCloseErr : Bool
  /-- The deferred call `archiveGz.Close()` returns an error. -/
  gzCloseErr : Bool
  /-- The deferred call `archive.Close()` returns an error. -/
  archiveCloseErr : Bool
  /-- The answers to the calls of `addFileToArchive`; `content` is used for
  paths other than the two files the run has written. -/
  sys : FileSys

/-- The file system as the archiving step finds it: the two output files hold
the bytes the consumer goroutines got into them. -/
def fileSysAfter (w : World) (usersCsvPath ordersCsvPath : Path)
    (usersDisk ordersDisk : List Nat) : FileSys :=
  { w.sys with
    content := fun p =>
      if p = usersCsvPath then usersDisk
      else if p = ordersCsvPath then ordersDisk
      else w.sys.content p }

/-- What a finished run leaves behind. -/
structure Report where
  /-- The value of `usersCount` logged at source line 213. -/
  usersCount : Nat
  /-- The value of `ordersCount` logged at source line 213. -/
  ordersCount : Nat
  /-- The `csv.Writer` of `users.csv` after `Flush`. -/
  usersCsv : CsvWriter
  /-- The `csv.Writer` of `sales.csv` after `Flush`. -/
  ordersCsv : CsvWriter
  /-- The bytes of `users.csv` when the file is closed. -/
  usersDisk : List Nat
  /-- The bytes of `sales.csv` when the file is closed. -/
  ordersDisk : List Nat
  usersCsvPath : Path
  ordersCsvPath : Path
  archivePath : Path
  /-- The entries handed to the tar writer, in order. -/
  archive : List TarEntry
  /-- The three deferred `Close` calls, which run after "Archive done" and
  write what the tar and gzip writers still hold, all returned `nil`. Their
  results are dropped; when one fails the archive file is cut short. -/
  archiveClosed : Bool
  deriving DecidableEq

/-- How a run of `main` ends. -/
inductive Outcome where
  /-- The call `log.Fatalln` ended the process with status 1; the flag says
  whether `os.Create(archivePath)` had already created the archive file. -/
  | fatal (archiveCreated : Bool)
  /-- A run-time panic ended the process. -/
  | panic
  /-- The run reached `log.Println("Archive done")` and returned from `main`. -/
  | success (r : Report)
  deriving DecidableEq

/-- Source lines 158-161: the backup directory. -/
def backupDir (w : World) : Path :=
  Path.given (if w.configBackupPath.length = 0 then w.backupFlag else w.configBackupPath)

/-- Source lines 211-230: the archiving step, entered when `backupers.Wait()`
has returned, so after each consumer goroutine has run `Flush` and closed its
file (source lines 184-185, 206-207; the results of both calls are dropped).
`none` only if the layout holds a token outside the model. -/
def archiveStep (w : World) (us os : Sink) : Option Outcome :=
  let usersCsv := us.writer.Flush w.usersLimit
  let ordersCsv := os.writer.Flush w.ordersLimit
  let usersCsvPath := Path.join (backupDir w) "users.csv"
  let ordersCsvPath := Path.join (backupDir w) "sales.csv"
  let archivesPath := Path.join (backupDir w) "archive"
  match (w.now Stage.archiving).Format archiveLayout with
  | none => none
  | some name =>
    let archivePath := Path.join archivesPath name
    if w.createErr then some (Outcome.fatal false) else
    let sys := fileSysAfter w usersCsvPath ordersCsvPath (usersCsv.disk w.usersLimit)
      (ordersCsv.disk w.ordersLimit)
    match addFileToArchive sys [] usersCsvPath with
    | (_, some _) => some (Outcome.fatal true)
    | (tw1, none) =>
      match addFileToArchive sys tw1 ordersCsvPath with
      | (_, some _) => some (Outcome.fatal true)
      | (tw2, none) =>
        some (Outcome.success
          { usersCount := us.count, ordersCount := os.count, usersCsv := usersCsv,
            ordersCsv := ordersCsv, usersDisk := usersCsv.disk w.usersLimit,
            ordersDisk := ordersCsv.disk w.ordersLimit, usersCsvPath := usersCsvPath,
            ordersCsvPath := ordersCsvPath, archivePath := archivePath, archive := tw2,
            archiveClosed := !(w.tarCloseErr || w.gzCloseErr || w.archiveCloseErr) })

/-- Source `func main()`, from line 158 on, under the interleaving `su` of the
users pipeline and `so` of the orders pipeline. `none` when the schedules are
not those of a whole run: one asks for a step that cannot be taken, or stops
while the program is still running. -/
def main (w : World) (su so : List Action) : Option Outcome :=
  if w.mkdirErr then some (Outcome.fatal false) else
  if w.usersOpenErr then some (Outcome.fatal false) else
  match Pipe.exec (usersShards w.databases) (Pipe.init UserRow) su with
  | none => none
  | some pu =>
    if pu.panicked then some Outcome.panic else
    if pu.fatal then some (Outcome.fatal false) else
    if pu.launched ≠ w.databases.length then none else
    if w.ordersOpenErr then some (Outcome.fatal false) else
    match Pipe.exec (ordersShards w.databases) (Pipe.init OrderRow) so with
    | none => none
    | some po =>
      if po.panicked then some Outcome.panic else
      if po.fatal then some (Outcome.fatal false) else
      if pu.consumerDone = false ∨ po.consumerDone = false then none else
      archiveStep w (usersLoop w.usersLimit (pu.received.map mkUser))
        (ordersLoop w.ordersLimit (po.received.map mkOrder))

/-- A file system in which every call succeeds. -/
def quietSys : FileSys :=
  { openErr := fun _ => false, statErr := fun _ => false, mode := fun _ => 420,
    modTime := fun _ => 1793782800600000000, content := fun _ => [],
    headerErr := fun _ => false, copyErr := fun _ => none }

/-- The example of the specification: shard 0 holds the users `(1, A)` and
`(2, B)`, shard 1 holds the user `(1, C)`; shard 1 also holds one sale. -/
def exampleWorld : World :=
  { configBackupPath := "/var/backup", backupFlag := "./",
    databases :=
      [ { dsn := "db0", users := ⟨false, false, [some ⟨1, "A"⟩, some ⟨2, "B"⟩], false⟩,
          sales := ⟨false, false, [], false⟩ },
        { dsn := "db1", users := ⟨false, false, [some ⟨1, "C"⟩], false⟩,
          sales := ⟨false, false, [some ⟨5, 1, Float64.finite false 5 (-1)⟩], false⟩ } ],
    mkdirErr := false, usersOpenErr := false, ordersOpenErr := false,
    usersLimit := none, ordersLimit := none,
    now := fun st => match st with
      | Stage.runStart => ⟨2026, 11, 4, 9, 5, 7⟩
      | Stage.archiving => ⟨2026, 11, 4, 9, 5, 9⟩,
    createErr := false, tarCloseErr := false, gzCloseErr := false, archiveCloseErr := false,
    sys := quietSys }

/-- An interleaving of the users pipeline of `exampleWorld`: shard 1 sends
its row between the two rows of shard 0. -/
def exampleUsersSchedule : List Action :=
  [Action.launch, Action.launch, Action.fetcher 0, Action.fetcher 1, Action.fetcher 0,
   Action.fetcher 1, Action.fetcher 0, Action.closer, Action.consumerEnd]

/-- An interleaving of the orders pipeline of `exampleWorld`. -/
def exampleOrdersSchedule : List Action :=
  [Action.launch, Action.launch, Action.fetcher 0, Action.fetcher 1, Action.fetcher 1,
   Action.closer, Action.consumerEnd]

/-! ## The invariant of the pipeline -/

/-- The rows of shard `i` among the records `l`, in order. -/
def rowsOf {ρ : Type} (i : Nat) (l : List (Nat × ρ)) : List ρ :=
  (l.filter (fun p => p.1 = i)).map Prod.snd

/-- What holds in every state the goroutines can reach. -/
structure Pipe.Inv {ρ : Type} (shards : List (Shard ρ)) (s : Pipe ρ) : Prop where
  len_pending : s.pending.length = s.launched
  len_live : s.live.length = s.launched
  launched_le : s.launched ≤ shards.length
  wg_eq : s.wg = s.live.count true
  closed_imp : s.closed = true → s.launched = shards.length ∧ s.wg = 0
  dead_empty : ∀ i : Nat, s.live[i]? = some false → s.pending[i]? = some []
  rows_eq : ∀ (i : Nat) sh l, shards[i]? = some sh → s.pending[i]? = some l →
    (rowsOf i s.received).map some ++ l = sh.rows
  recv_lt : ∀ p ∈ s.received, p.1 < s.launched
  done_closed : s.consumerDone = true → s.closed = true
  closer_eq : s.closerDone = s.closed
  no_panic : s.panicked = false
  close_count : closeCount s.trace = if s.closed then 1 else 0
  open_trace : s.closed = false → s.trace.any (fun x => x.isClose || x.isRangeEnd) = false
  sends_first : sendsFirst s.trace = true
  dones_first : donesFirst s.trace = true
  total : s.received.length + (s.pending.map List.length).sum
      + ((shards.drop s.launched).map (fun sh => sh.rows.length)).sum
      = (shards.map (fun sh => sh.rows.length)).sum
  launched_ok : ∀ (i : Nat) sh, i < s.launched → shards[i]? = some sh →
    sh.openErr = false ∧ sh.queryErr = false

/-! ## Definitions used to state the properties -/

/-- The rows of a shard that decode, in result order. -/
def Shard.decoded {ρ : Type} (sh : Shard ρ) : List ρ := sh.rows.filterMap id

/-- Every row of every shard, each with the index of its shard counted from
`k`, shard after shard. -/
def taggedFrom {ρ : Type} : Nat → List (Shard ρ) → List (Nat × ρ)
  | _, [] => []
  | k, sh :: rest => sh.decoded.map (fun r => (k, r)) ++ taggedFrom (k + 1) rest

/-- The value of a decimal digit character. -/
def charDigit (c : Char) : Nat := c.toNat - 48

/-- The integer a decimal numeral stands for (the inverse of `Itoa`). -/
def Atoi (s : String) : Int :=
  match s.toList with
  | '-' :: cs => -((digitsValue (cs.map charDigit) : Nat) : Int)
  | cs => ((digitsValue (cs.map charDigit) : Nat) : Int)

/-- The text is a fixed-point decimal with six fractional digits: an optional
`-`, one or more digits, a point, and exactly six digits. -/
def isFixedPoint6 (s : String) : Bool :=
  let cs := match s.toList with
    | '-' :: r => r
    | r => r
  match cs.dropWhile Char.isDigit with
  | '.' :: frac => !(cs.takeWhile Char.isDigit).isEmpty && frac.length == 6 && frac.all Char.isDigit
  | _ => false

/-- Two decimal digits, zero padded. -/
def twoDigits (n : Nat) : List Char := [digitChar (n / 10 % 10), digitChar (n % 10)]

/-- Four decimal digits, zero padded. -/
def fourDigits (n : Nat) : List Char :=
  [digitChar (n / 1000 % 10), digitChar (n / 100 % 10), digitChar (n / 10 % 10),
   digitChar (n % 10)]

/-- The name `backup-YYYY-MM-DD-HH-MM-SS.tar.gz` of the specification for the
time `t`: a four-digit year and two-digit month, day, hour, minute, second. -/
def specArchiveName (t : Time) : String :=
  String.mk ("backup-".toList ++ fourDigits t.year.natAbs ++ ['-'] ++ twoDigits t.month ++ ['-']
    ++ twoDigits t.day ++ ['-'] ++ twoDigits t.hour ++ ['-'] ++ twoDigits t.minute ++ ['-']
    ++ twoDigits t.second ++ ".tar.gz".toList)

/-- A bound on the number of steps still possible from a state. -/
def Pipe.fuel {ρ : Type} (shards : List (Shard ρ)) (s : Pipe ρ) : Nat :=
  ((shards.drop s.launched).map (fun sh => sh.rows.length + 2)).sum
    + (s.pending.map List.length).sum + s.live.count true
    + (if s.closerDone then 0 else 1) + (if s.consumerDone then 0 else 1)
    + (if s.fatal then 0 else 1) + (if s.panicked then 0 else 1)

/-! ## Worlds used as examples -/

/-- The state the users pipeline of `exampleWorld` ends in under
`exampleUsersSchedule`. -/
def exampleUsersPipe : Pipe UserRow :=
  { launched := 2, pending := [[], []], live := [false, false], wg := 0, closed := true,
    closerDone := true, consumerDone := true, fatal := false, panicked := false,
    trace := [Event.rangeEnd, Event.close, Event.done 0, Event.done 1, Event.send 0 ⟨2, "B"⟩,
              Event.send 1 ⟨1, "C"⟩, Event.send 0 ⟨1, "A"⟩] }

/-- The state the orders pipeline of `exampleWorld` ends in under
`exampleOrdersSchedule`. -/
def exampleOrdersPipe : Pipe OrderRow :=
  { launched := 2, pending := [[], []], live := [false, false], wg := 0, closed := true,
    closerDone := true, consumerDone := true, fatal := false, panicked := false,
    trace := [Event.rangeEnd, Event.close, Event.done 1, Event.send 1 ⟨5, 1, Float64.finite false 5 (-1)⟩,
              Event.done 0] }

/-- The report of a run that reached "Archive done". -/
def Outcome.report? : Outcome → Option Report
  | Outcome.success r => some r
  | _ => none

/-- A world like `exampleWorld` in which the iteration over the users of
shard 0 stops on an error after the first row: `rows.Next()` returns false and
`rows.Err()` is not nil. -/
def truncatedWorld : World :=
  { exampleWorld with
    databases :=
      [ { dsn := "db0", users := ⟨false, false, [some ⟨1, "A"⟩], true⟩,
          sales := ⟨false, false, [], false⟩ } ] }

/-- An interleaving of either pipeline of `truncatedWorld`. -/
def truncatedSchedule (rows : Nat) : List Action :=
  [Action.launch] ++ List.replicate (rows + 1) (Action.fetcher 0)
    ++ [Action.closer, Action.consumerEnd]

/-- A file system like `quietSys` in which `file.Stat()` fails. -/
def statFailSys : FileSys := { quietSys with statErr := fun _ => true }

/-- A world like `exampleWorld` whose clock shows the year 10000 at the
archiving step. -/
def farFutureWorld : World :=
  { exampleWorld with
    now := fun st => match st with
      | Stage.runStart => ⟨9999, 12, 31, 23, 59, 59⟩
      | Stage.archiving => ⟨10000, 1, 1, 0, 0, 0⟩ }

/-- What the run of `exampleWorld` under the two example interleavings leaves
behind. -/
def exampleReport : Report :=
  { usersCount := 3, ordersCount := 1,
    usersCsv := { rows := [["0", "1", "A"], ["1", "1", "C"], ["0", "2", "B"]],
                  stream := utf8Bytes "0,1,A\n1,1,C\n0,2,B\n".toList, err := false },
    ordersCsv := { rows := [["1", "5", "1", "2.500000"]],
                   stream := utf8Bytes "1,5,1,2.500000\n".toList, err := false },
    usersDisk := utf8Bytes "0,1,A\n1,1,C\n0,2,B\n".toList,
    ordersDisk := utf8Bytes "1,5,1,2.500000\n".toList,
    usersCsvPath := Path.join (Path.given "/var/backup") "users.csv",
    ordersCsvPath := Path.join (Path.given "/var/backup") "sales.csv",
    archivePath := Path.join (Path.join (Path.given "/var/backup") "archive")
      "backup-2026-11-04-09-05-09.tar.gz",
    archive :=
      [ { header := { Name := Path.join (Path.given "/var/backup") "users.csv", Size := 18,
                      Mode := 420, ModTime := 1793782801000000000 },
          data := utf8Bytes "0,1,A\n1,1,C\n0,2,B\n".toList },
        { header := { Name := Path.join (Path.given "/var/backup") "sales.csv", Size := 15,
                      Mode := 420, ModTime := 1793782801000000000 },
          data := utf8Bytes "1,5,1,2.500000\n".toList } ],
    archiveClosed := true }

/-- A world like `exampleWorld` in which the disk takes eight bytes of
`users.csv` and no more. -/
def diskFullWorld : World := { exampleWorld with usersLimit := some 8 }

/-- A world like `exampleWorld` in which the deferred `archiveGz.Close()`
fails. -/
def closeFailWorld : World := { exampleWorld with gzCloseErr := true }

/-- A world like `exampleWorld` in which `file.Stat()` fails on `users.csv`. -/
def statFailWorld : World :=
  { exampleWorld with
    sys := { quietSys with
      statErr := fun p => decide (p = Path.join (Path.given "/var/backup") "users.csv") } }

/-! ## The definitions evaluated on small inputs -/

theorem Itoa_eval : Itoa 0 = "0" ∧ Itoa 1203 = "1203" ∧ Itoa (-45) = "-45" := by decide

theorem FormatFloat6_eval :
    FormatFloat6 (Float64.finite false 3 (-1)) = "1.500000" ∧
    FormatFloat6 (Float64.finite true 1 (-21)) = "-0.000000" ∧
    FormatFloat6 (Float64.finite false 1 (-20)) = "0.000001" ∧
    FormatFloat6 (Float64.finite false 5 (-1)) = "2.500000" ∧
    FormatFloat6 (Float64.finite false 1 (-1)) = "0.500000" ∧
    FormatFloat6 (Float64.finite false 1 3) = "8.000000" := by decide

theorem Format_eval :
    (Time.mk 2026 11 4 9 5 7).Format archiveLayout = some "backup-2026-11-04-09-05-07.tar.gz" ∧
    (Time.mk 2026 11 4 21 5 7).Format "3:04pm" = none ∧
    (Time.mk 2026 11 4 21 5 7).Format "2/1/06 3h4" = some "4/11/26 9h5" := by decide

theorem blocked_send_eval :
    Pipe.exec (usersShards exampleWorld.databases) (Pipe.init UserRow)
      [Action.launch, Action.fetcher 0] = none := by decide

/-! ## The invariant holds in every reachable state -/

theorem Pipe.inv_init {ρ : Type} (shards : List (Shard ρ)) : (Pipe.init ρ).Inv shards := by
  constructor <;> simp [Pipe.init, Pipe.received, sentOf, closeCount, sendsFirst, donesFirst, rowsOf]

theorem sum_length_set {β : Type} (l : List (List β)) (i : Nat) (x : β) (rest : List β)
    (h : l[i]? = some (x :: rest)) :
    ((l.set i rest).map List.length).sum + 1 = (l.map List.length).sum := by
  induction l generalizing i with
  | nil => simp at h
  | cons a l ih =>
    cases i with
    | zero =>
      simp at h
      subst h
      simp
      omega
    | succ i =>
      simp only [List.getElem?_cons_succ] at h
      have := ih i h
      simp only [List.set_cons_succ, List.map_cons, List.sum_cons]
      omega

theorem count_true_pos (l : List Bool) (i : Nat) (h : l[i]? = some true) : 0 < l.count true := by
  rw [List.count_pos_iff]
  exact List.getElem?_mem h

theorem rowsOf_append {ρ : Type} (i : Nat) (l m : List (Nat × ρ)) :
    rowsOf i (l ++ m) = rowsOf i l ++ rowsOf i m := by
  simp [rowsOf]

theorem rowsOf_nil_of_lt {ρ : Type} (i : Nat) (l : List (Nat × ρ)) (h : ∀ p ∈ l, p.1 < i) :
    rowsOf i l = [] := by
  simp only [rowsOf, List.map_eq_nil_iff, List.filter_eq_nil_iff]
  intro p hp
  have := h p hp
  simp
  omega

theorem any_isClose_of_open {ρ : Type} (tr : List (Event ρ))
    (h : tr.any (fun x => x.isClose || x.isRangeEnd) = false) : tr.any Event.isClose = false := by
  rw [List.any_eq_false] at h ⊢
  intro x hx
  have := h x hx
  simp at this
  simp [this.1]

theorem sentOf_cons_send {ρ : Type} (i : Nat) (r : ρ) (tr : List (Event ρ)) :
    sentOf (Event.send i r :: tr) = sentOf tr ++ [(i, r)] := rfl

theorem closeCount_cons_of_not {ρ : Type} (e : Event ρ) (tr : List (Event ρ))
    (h : e.isClose = false) : closeCount (e :: tr) = closeCount tr := by
  simp [closeCount, List.countP_cons, h]

theorem closeCount_cons_close {ρ : Type} (tr : List (Event ρ)) :
    closeCount (Event.close :: tr) = closeCount tr + 1 := by
  simp [closeCount, List.countP_cons, Event.isClose]

theorem Pipe.Inv.setFatal {ρ : Type} {shards : List (Shard ρ)} {s : Pipe ρ} (hs : s.Inv shards) :
    Pipe.Inv shards { s with fatal := true } :=
  ⟨hs.1, hs.2, hs.3, hs.4, hs.5, hs.6, hs.7, hs.8, hs.9, hs.10, hs.11, hs.12, hs.13, hs.14,
   hs.15, hs.16, hs.17⟩

theorem Pipe.inv_launch {ρ : Type} (shards : List (Shard ρ)) (s t : Pipe ρ)
    (hs : s.Inv shards) (h : s.step shards Action.launch = some t) : t.Inv shards := by
  simp only [Pipe.step] at h
  split at h
  · simp at h
  · split at h
    · simp at h
    · rename_i sh hsh
      split at h
      · simp only [Option.some.injEq] at h
        subst h
        exact hs.setFatal
      · simp only [Option.some.injEq] at h
        subst h
        have hlt : s.launched < shards.length := (List.getElem?_eq_some_iff.1 hsh).1
        refine ⟨?_, ?_, ?_, ?_, ?_, ?_, ?_, ?_, hs.done_closed, hs.closer_eq, hs.no_panic,
          hs.close_count, hs.open_trace, hs.sends_first, hs.dones_first, ?_, ?_⟩
        · simp [hs.len_pending]
        · simp [hs.len_live]
        · exact hlt
        · simp [hs.wg_eq, List.count_append]
        · intro hc
          have := (hs.closed_imp hc).1
          omega
        · intro i hi
          simp only [List.getElem?_append] at hi
          split at hi
          · rename_i h1
            have := hs.dead_empty i hi
            rw [List.getElem?_append_left (by rw [hs.len_pending, ← hs.len_live]; exact h1)]
            exact this
          · rename_i h1
            cases hh : i - s.live.length <;> simp [hh] at hi
        · intro i sh1 l h1 h2
          simp only [List.getElem?_append] at h2
          split at h2
          · exact hs.rows_eq i sh1 l h1 h2
          · rename_i h3
            rw [hs.len_pending] at h3 h2
            cases hh : i - s.launched with
            | zero =>
              simp [hh] at h2
              have : i = s.launched := by omega
              subst this
              rw [hsh] at h1
              simp at h1
              subst h1
              have := rowsOf_nil_of_lt s.launched s.received hs.recv_lt
              simp only [Pipe.received] at this ⊢
              rw [this, ← h2]
              simp
            | succ k => simp [hh] at h2
        · intro p hp
          have := hs.recv_lt p hp
          exact Nat.lt_succ_of_lt this
        · have h16 := hs.total
          have hd : shards.drop s.launched = sh :: shards.drop (s.launched + 1) := by
            rw [List.drop_eq_getElem_cons hlt]
            congr 1
            have := List.getElem?_eq_getElem hlt
            rw [hsh] at this
            simpa using this.symm
          rw [hd] at h16
          simp only [Pipe.received] at h16 ⊢
          simp only [List.map_append, List.sum_append, List.map_cons, List.sum_cons, List.map_nil,
            List.sum_nil] at h16 ⊢
          omega
        · intro i sh1 hi h1
          have hi2 : i < s.launched + 1 := hi
          by_cases hlast : i = s.launched
          · subst hlast
            rw [hsh] at h1
            simp only [Option.some.injEq] at h1
            subst h1
            rename_i hbad
            simp only [not_or, Bool.not_eq_true] at hbad
            exact hbad
          · exact hs.launched_ok i sh1 (by omega) h1

theorem Pipe.inv_fetcher {ρ : Type} (shards : List (Shard ρ)) (s t : Pipe ρ) (i : Nat)
    (hs : s.Inv shards) (h : s.step shards (Action.fetcher i) = some t) : t.Inv shards := by
  simp only [Pipe.step] at h
  split at h
  · simp at h
  split at h
  · simp at h
  rename_i hlive
  simp only [ne_eq, Decidable.not_not] at hlive
  have hpos := count_true_pos s.live i hlive
  have hopen : s.closed = false := by
    cases hc : s.closed with
    | false => rfl
    | true =>
      have := (hs.closed_imp hc).2
      rw [hs.wg_eq] at this
      omega
  have hany := hs.open_trace hopen
  split at h
  · simp at h
  · -- rows.Next() is false
    rename_i hp
    split at h
    · rename_i hw
      rw [hs.wg_eq] at hw
      omega
    · simp only [Option.some.injEq] at h
      subst h
      have hil : i < s.live.length := (List.getElem?_eq_some_iff.1 hlive).1
      refine ⟨?_, ?_, hs.launched_le, ?_, ?_, ?_, hs.rows_eq, hs.recv_lt, hs.done_closed,
        hs.closer_eq, hs.no_panic, ?_, ?_, ?_, ?_, hs.total, hs.launched_ok⟩
      · exact hs.len_pending
      · simp [hs.len_live]
      · have hg : s.live[i] = true := by
          have := List.getElem?_eq_getElem hil
          rw [hlive] at this
          simpa using this.symm
        simp only [hs.wg_eq]
        rw [List.count_set _ _ _ _ hil]
        simp [hg]
      · intro hc
        simp [hopen] at hc
      · intro j hj
        by_cases hij : i = j
        · subst hij
          exact hp
        · rw [List.getElem?_set_ne hij] at hj
          exact hs.dead_empty j hj
      · exact (closeCount_cons_of_not _ s.trace (by rfl)).trans hs.close_count
      · intro _
        simpa [Event.isClose, Event.isRangeEnd] using hany
      · simpa [sendsFirst, Event.isSend] using hs.sends_first
      · have h2 := any_isClose_of_open _ hany
        simp only [donesFirst, h2, hs.dones_first]
        simp
  · -- rows.Scan fails
    simp only [Option.some.injEq] at h
    subst h
    exact hs.setFatal
  · -- the send
    rename_i r rest hp
    split at h
    · rename_i hc
      rw [hopen] at hc
      simp at hc
    split at h
    · rename_i hg
      simp only [Option.some.injEq] at h
      subst h
      have hip : i < s.launched := by
        rw [← hs.len_pending]
        exact (List.getElem?_eq_some_iff.1 hp).1
      refine ⟨?_, hs.len_live, hs.launched_le, hs.wg_eq, ?_, ?_, ?_, ?_, hs.done_closed,
        hs.closer_eq, hs.no_panic, ?_, ?_, ?_, ?_, ?_, hs.launched_ok⟩
      · simp [hs.len_pending]
      · intro hc
        simp [hopen] at hc
      · intro j hj
        by_cases hij : i = j
        · subst hij
          rw [hlive] at hj
          simp at hj
        · rw [List.getElem?_set_ne hij]
          exact hs.dead_empty j hj
      · intro j sh l h1 h2
        simp only [Pipe.received, sentOf_cons_send, rowsOf_append]
        by_cases hij : i = j
        · subst hij
          rw [List.getElem?_set_self (by rw [hs.len_pending]; exact hip)] at h2
          simp only [Option.some.injEq] at h2
          subst h2
          have := hs.rows_eq i sh _ h1 hp
          rw [← this]
          simp [rowsOf, Pipe.received]
        · rw [List.getElem?_set_ne hij] at h2
          have := hs.rows_eq j sh l h1 h2
          rw [← this]
          simp [rowsOf, Pipe.received, hij]
      · intro p hp2
        simp only [Pipe.received, sentOf_cons_send, List.mem_append, List.mem_singleton] at hp2
        rcases hp2 with hp2 | hp2
        · exact hs.recv_lt p hp2
        · subst hp2
          exact hip
      · exact (closeCount_cons_of_not _ s.trace (by rfl)).trans hs.close_count
      · intro _
        simpa [Event.isClose, Event.isRangeEnd] using hany
      · simp only [sendsFirst, hany, hs.sends_first]
        simp
      · simpa [donesFirst, Event.isDone] using hs.dones_first
      · have h16 := hs.total
        have := sum_length_set s.pending i (some r) rest hp
        simp only [Pipe.received, sentOf_cons_send, List.length_append, List.length_singleton]
          at h16 ⊢
        omega
    · simp at h

theorem Pipe.inv_closer {ρ : Type} (shards : List (Shard ρ)) (s t : Pipe ρ)
    (hs : s.Inv shards) (h : s.step shards Action.closer = some t) : t.Inv shards := by
  simp only [Pipe.step] at h
  split at h
  · simp at h
  split at h
  · rename_i hg
    have hopen : s.closed = false := by rw [← hs.closer_eq]; exact hg.2.1
    split at h
    · rename_i hc
      rw [hopen] at hc
      simp at hc
    simp only [Option.some.injEq] at h
    subst h
    refine ⟨hs.len_pending, hs.len_live, hs.launched_le, hs.wg_eq, ?_, hs.dead_empty, hs.rows_eq,
      hs.recv_lt, ?_, rfl, hs.no_panic, ?_, ?_, ?_, ?_, hs.total, hs.launched_ok⟩
    · intro _
      exact ⟨hg.1, hg.2.2⟩
    · intro _
      rfl
    · have := hs.close_count
      simp only [hopen, Bool.false_eq_true, if_false] at this
      show closeCount (Event.close :: s.trace) = 1
      rw [closeCount_cons_close, this]
    · intro hc
      simp at hc
    · simpa [sendsFirst, Event.isSend] using hs.sends_first
    · simpa [donesFirst, Event.isDone] using hs.dones_first
  · simp at h

theorem Pipe.inv_consumerEnd {ρ : Type} (shards : List (Shard ρ)) (s t : Pipe ρ)
    (hs : s.Inv shards) (h : s.step shards Action.consumerEnd = some t) : t.Inv shards := by
  simp only [Pipe.step] at h
  split at h
  · simp at h
  split at h
  · rename_i hg
    simp only [Option.some.injEq] at h
    subst h
    refine ⟨hs.len_pending, hs.len_live, hs.launched_le, hs.wg_eq, hs.closed_imp, hs.dead_empty,
      hs.rows_eq, hs.recv_lt, ?_, hs.closer_eq, hs.no_panic, ?_, ?_, ?_, ?_, hs.total, hs.launched_ok⟩
    · intro _
      exact hg.2.1
    · exact (closeCount_cons_of_not _ s.trace (by rfl)).trans hs.close_count
    · intro hc
      rw [hg.2.1] at hc
      simp at hc
    · simpa [sendsFirst, Event.isSend] using hs.sends_first
    · simpa [donesFirst, Event.isDone] using hs.dones_first
  · simp at h

theorem Pipe.inv_step {ρ : Type} (shards : List (Shard ρ)) (s t : Pipe ρ) (a : Action)
    (hs : s.Inv shards) (h : s.step shards a = some t) : t.Inv shards := by
  cases a with
  | launch => exact Pipe.inv_launch shards s t hs h
  | fetcher i => exact Pipe.inv_fetcher shards s t i hs h
  | closer => exact Pipe.inv_closer shards s t hs h
  | consumerEnd => exact Pipe.inv_consumerEnd shards s t hs h

theorem Pipe.inv_exec {ρ : Type} (shards : List (Shard ρ)) (sched : List Action) :
    ∀ s t : Pipe ρ, s.Inv shards → Pipe.exec shards s sched = some t → t.Inv shards := by
  induction sched with
  | nil =>
    intro s t hs h
    simp only [Pipe.exec, Option.some.injEq] at h
    subst h
    exact hs
  | cons a as ih =>
    intro s t hs h
    simp only [Pipe.exec] at h
    split at h
    · simp at h
    · rename_i s1 h1
      exact ih s1 t (Pipe.inv_step shards s s1 a hs h1) h

theorem Pipe.inv_of_exec {ρ : Type} (shards : List (Shard ρ)) (sched : List Action) (t : Pipe ρ)
    (h : Pipe.exec shards (Pipe.init ρ) sched = some t) : t.Inv shards :=
  Pipe.inv_exec shards sched _ t (Pipe.inv_init shards) h

/-! ## The state once the channel is closed -/

theorem Pipe.closed_pending_nil {ρ : Type} {shards : List (Shard ρ)} {s : Pipe ρ}
    (hs : s.Inv shards) (hc : s.closed = true) (i : Nat) (hi : i < s.launched) :
    s.pending[i]? = some [] := by
  have hw := (hs.closed_imp hc).2
  rw [hs.wg_eq] at hw
  have hil : i < s.live.length := by rw [hs.len_live]; exact hi
  apply hs.dead_empty
  rw [List.getElem?_eq_getElem hil]
  cases hb : s.live[i] with
  | false => rfl
  | true =>
    have : 0 < s.live.count true := count_true_pos s.live i (by rw [List.getElem?_eq_getElem hil, hb])
    omega

theorem Pipe.closed_rows {ρ : Type} {shards : List (Shard ρ)} {s : Pipe ρ}
    (hs : s.Inv shards) (hc : s.closed = true) (i : Nat) (sh : Shard ρ)
    (hi : shards[i]? = some sh) : (rowsOf i s.received).map some = sh.rows := by
  have hl := (hs.closed_imp hc).1
  have hlt : i < shards.length := (List.getElem?_eq_some_iff.1 hi).1
  have hp := Pipe.closed_pending_nil hs hc i (by omega)
  have := hs.rows_eq i sh [] hi hp
  simpa using this

theorem decoded_of_map_some {ρ : Type} (sh : Shard ρ) (l : List ρ) (h : l.map some = sh.rows) :
    sh.decoded = l := by
  simp [Shard.decoded, ← h, List.filterMap_map]

theorem filter_fst_eq {ρ : Type} (k : Nat) (l : List (Nat × ρ)) :
    l.filter (fun p => p.1 = k) = (rowsOf k l).map (fun r => (k, r)) := by
  unfold rowsOf
  induction l with
  | nil => rfl
  | cons a l ih =>
    by_cases h : a.1 = k
    · rw [List.filter_cons_of_pos (by simpa using h), List.map_cons, List.map_cons, ← ih]
      congr 1
      exact Prod.ext h rfl
    · rw [List.filter_cons_of_neg (by simpa using h)]
      exact ih

theorem rowsOf_filter_ne {ρ : Type} (k j : Nat) (h : j ≠ k) (l : List (Nat × ρ)) :
    rowsOf j (l.filter (fun p => !decide (p.1 = k))) = rowsOf j l := by
  simp only [rowsOf, List.filter_filter]
  congr 1
  apply List.filter_congr
  intro p _
  by_cases hp : p.1 = j
  · simp [hp, h]
  · simp [hp]

theorem perm_taggedFrom {ρ : Type} (shards : List (Shard ρ)) :
    ∀ (k : Nat) (l : List (Nat × ρ)),
      (∀ p ∈ l, k ≤ p.1 ∧ p.1 < k + shards.length) →
      (∀ (i : Nat) sh, shards[i]? = some sh → (rowsOf (k + i) l).map some = sh.rows) →
      l.Perm (taggedFrom k shards) := by
  induction shards with
  | nil =>
    intro k l hb _
    cases l with
    | nil => exact List.Perm.refl _
    | cons a l =>
      have := hb a (List.mem_cons_self _ _)
      simp at this
      omega
  | cons sh rest ih =>
    intro k l hb hr
    have h0 := hr 0 sh (by simp)
    simp only [Nat.add_zero] at h0
    have hd := decoded_of_map_some sh _ h0
    have hperm := (List.filter_append_perm (fun p : Nat × ρ => decide (p.1 = k)) l).symm
    refine hperm.trans ?_
    simp only [taggedFrom]
    apply List.Perm.append
    · rw [filter_fst_eq, hd]
    · apply ih (k + 1)
      · intro p hp
        simp only [List.mem_filter, Bool.not_eq_true', decide_eq_false_iff_not] at hp
        have := hb p hp.1
        simp only [List.length_cons] at this
        omega
      · intro i sh1 hi
        have := hr (i + 1) sh1 (by simpa using hi)
        rw [rowsOf_filter_ne k (k + 1 + i) (by omega)]
        have e : k + 1 + i = k + (i + 1) := by omega
        rw [e]
        exact this

theorem Pipe.closed_perm {ρ : Type} {shards : List (Shard ρ)} {s : Pipe ρ}
    (hs : s.Inv shards) (hc : s.closed = true) : s.received.Perm (taggedFrom 0 shards) := by
  apply perm_taggedFrom
  · intro p hp
    have := hs.recv_lt p hp
    have := hs.launched_le
    omega
  · intro i sh hi
    rw [Nat.zero_add]
    exact Pipe.closed_rows hs hc i sh hi

theorem Pipe.closed_length {ρ : Type} {shards : List (Shard ρ)} {s : Pipe ρ}
    (hs : s.Inv shards) (hc : s.closed = true) :
    s.received.length = (shards.map (fun sh => sh.rows.length)).sum := by
  have ht := hs.total
  have hl := (hs.closed_imp hc).1
  have hz : (s.pending.map List.length).sum = 0 := by
    apply List.sum_eq_zero
    intro x hx
    simp only [List.mem_map] at hx
    obtain ⟨l, hl1, hl2⟩ := hx
    obtain ⟨n, hn⟩ := List.mem_iff_getElem?.1 hl1
    have hnl : n < s.pending.length := (List.getElem?_eq_some_iff.1 hn).1
    have := Pipe.closed_pending_nil hs hc n (by rw [← hs.len_pending]; exact hnl)
    rw [hn] at this
    simp only [Option.some.injEq] at this
    subst this
    exact hl2.symm
  rw [hl, hz] at ht
  simpa using ht

/-! ## Rendering of integers, amounts and times -/

theorem digitsLE_lt (fuel : Nat) : ∀ n d, d ∈ digitsLE fuel n → d < 10 := by
  induction fuel with
  | zero => intro n d h; simp [digitsLE] at h
  | succ f ih =>
    intro n d h
    simp only [digitsLE] at h
    split at h
    · simp at h; omega
    · simp only [List.mem_cons] at h
      rcases h with h | h
      · omega
      · exact ih _ _ h

theorem digitsLE_value (fuel : Nat) : ∀ n, n < fuel →
    (digitsLE fuel n).foldr (fun d acc => 10 * acc + d) 0 = n := by
  induction fuel with
  | zero => intro n h; omega
  | succ f ih =>
    intro n h
    simp only [digitsLE]
    split
    · simp
    · simp only [List.foldr_cons]
      rw [ih (n / 10) (by omega)]
      omega

theorem digitsLE_ne_nil (fuel n : Nat) (h : 0 < fuel) : digitsLE fuel n ≠ [] := by
  cases fuel with
  | zero => omega
  | succ f =>
    simp only [digitsLE]
    split <;> simp

theorem decDigits_lt (n d : Nat) (h : d ∈ decDigits n) : d < 10 := by
  simp only [decDigits, List.mem_reverse] at h
  exact digitsLE_lt _ _ _ h

theorem decDigits_value (n : Nat) : digitsValue (decDigits n) = n := by
  simp only [digitsValue, decDigits, List.foldl_reverse]
  exact digitsLE_value (n + 1) n (by omega)

theorem decDigits_ne_nil (n : Nat) : decDigits n ≠ [] := by
  simp only [decDigits, ne_eq, List.reverse_eq_nil_iff]
  exact digitsLE_ne_nil _ _ (by omega)

theorem charDigit_digitChar (d : Nat) (h : d < 10) : charDigit (digitChar d) = d := by
  interval_cases d <;> rfl

theorem digitChar_isDigit (d : Nat) (h : d < 10) : (digitChar d).isDigit = true := by
  interval_cases d <;> rfl

theorem digitChar_ne_minus (d : Nat) (h : d < 10) : digitChar d ≠ '-' := by
  interval_cases d <;> decide

theorem map_charDigit_digitChar (ds : List Nat) (h : ∀ d ∈ ds, d < 10) :
    (ds.map digitChar).map charDigit = ds := by
  induction ds with
  | nil => rfl
  | cons a l ih =>
    simp only [List.map_cons]
    rw [charDigit_digitChar a (h a (List.mem_cons_self _ _)),
      ih (fun d hd => h d (List.mem_cons_of_mem _ hd))]

theorem natStr_toList (n : Nat) : (natStr n).toList = (decDigits n).map digitChar := rfl

theorem natOfStr_natStr (n : Nat) : digitsValue ((natStr n).toList.map charDigit) = n := by
  rw [natStr_toList, map_charDigit_digitChar _ (decDigits_lt n), decDigits_value]

theorem Atoi_natStr (n : Nat) : Atoi (natStr n) = (n : Int) := by
  unfold Atoi
  have hv := natOfStr_natStr n
  rw [natStr_toList] at hv ⊢
  cases hd : decDigits n with
  | nil => exact absurd hd (decDigits_ne_nil n)
  | cons a l =>
    rw [hd] at hv
    have ha : a < 10 := decDigits_lt n a (by rw [hd]; exact List.mem_cons_self _ _)
    simp only [List.map_cons] at hv ⊢
    split
    · rename_i cs heq
      simp only [List.cons.injEq] at heq
      exact absurd heq.1 (digitChar_ne_minus a ha)
    · simp only [List.map_cons, hv]

/-- `Itoa` writes an integer in decimal: reading the numeral back gives the
integer. -/
theorem Atoi_Itoa (n : Int) : Atoi (Itoa n) = n := by
  cases n with
  | ofNat k => exact Atoi_natStr k
  | negSucc k =>
    have hv := natOfStr_natStr (k + 1)
    simp only [Itoa, Atoi]
    have : ("-" ++ natStr (k + 1)).toList = '-' :: (natStr (k + 1)).toList := by
      rfl
    rw [this]
    simp only [hv]
    rfl

theorem Itoa_injective (a b : Int) (h : Itoa a = Itoa b) : a = b := by
  have := congrArg Atoi h
  rwa [Atoi_Itoa, Atoi_Itoa] at this

theorem span_digits (ds : List Char) (rest : List Char) (h : ∀ c ∈ ds, c.isDigit = true) :
    (ds ++ '.' :: rest).takeWhile Char.isDigit = ds ∧
    (ds ++ '.' :: rest).dropWhile Char.isDigit = '.' :: rest := by
  induction ds with
  | nil => exact ⟨by simp [List.takeWhile, show Char.isDigit '.' = false from rfl],
      by simp [List.dropWhile, show Char.isDigit '.' = false from rfl]⟩
  | cons a l ih =>
    have ha := h a (List.mem_cons_self _ _)
    obtain ⟨h1, h2⟩ := ih (fun c hc => h c (List.mem_cons_of_mem _ hc))
    exact ⟨by simp [List.takeWhile, ha, h1], by simp [List.dropWhile, ha, h2]⟩

theorem natStr_digits (n : Nat) : ∀ c ∈ (natStr n).toList, c.isDigit = true := by
  intro c hc
  rw [natStr_toList, List.mem_map] at hc
  obtain ⟨d, hd, rfl⟩ := hc
  exact digitChar_isDigit d (decDigits_lt n d hd)

theorem sixDigits_digits (n : Nat) : ∀ c ∈ sixDigits n, c.isDigit = true := by
  intro c hc
  simp only [sixDigits, List.mem_cons, List.mem_singleton, List.not_mem_nil, or_false] at hc
  rcases hc with h | h | h | h | h | h <;> subst h <;>
    exact digitChar_isDigit _ (Nat.mod_lt _ (by decide))

theorem isFixedPoint6_of_parts (neg : Bool) (ip : List Char) (frac : List Char)
    (hne : ip ≠ []) (hip : ∀ c ∈ ip, c.isDigit = true) (hlen : frac.length = 6)
    (hfrac : ∀ c ∈ frac, c.isDigit = true) :
    isFixedPoint6 (String.mk ((if neg then ['-'] else []) ++ ip ++ '.' :: frac)) = true := by
  obtain ⟨h1, h2⟩ := span_digits ip frac hip
  have hall : frac.all Char.isDigit = true := by
    rw [List.all_eq_true]; exact hfrac
  have hemp : ip.isEmpty = false := by
    cases ip with
    | nil => exact absurd rfl hne
    | cons a l => rfl
  have hstrip : (match (if neg then ['-'] else []) ++ ip ++ '.' :: frac with
      | '-' :: r => r
      | r => r) = ip ++ '.' :: frac := by
    cases neg with
    | true => rfl
    | false =>
      cases ip with
      | nil => exact absurd rfl hne
      | cons a l =>
        have ha : a ≠ '-' := by
          intro e
          have := hip a (List.mem_cons_self _ _)
          rw [e] at this
          exact absurd this (by decide)
        simp only [Bool.false_eq_true, if_false, List.nil_append, List.cons_append]
        split
        · rename_i r heq
          simp only [List.cons.injEq] at heq
          exact absurd heq.1 ha
        · rfl
  unfold isFixedPoint6
  simp only [String.toList]
  rw [hstrip, h1, h2]
  simp only [hlen, hall, hemp]
  rfl

theorem FormatFloat6_finite_toList (neg : Bool) (mant : Nat) (exp : Int) :
    FormatFloat6 (Float64.finite neg mant exp) =
      String.mk ((if neg then ['-'] else []) ++ (natStr (scaledMicros mant exp / 1000000)).toList
        ++ '.' :: sixDigits (scaledMicros mant exp)) := by
  apply String.ext
  cases neg <;> simp [FormatFloat6, String.toList]

theorem FormatFloat6_fixed (neg : Bool) (mant : Nat) (exp : Int) :
    isFixedPoint6 (FormatFloat6 (Float64.finite neg mant exp)) = true := by
  rw [FormatFloat6_finite_toList]
  apply isFixedPoint6_of_parts
  · rw [natStr_toList]
    simp only [ne_eq, List.map_eq_nil_iff]
    exact decDigits_ne_nil _
  · exact natStr_digits _
  · rfl
  · exact sixDigits_digits _

theorem digitsLE_small (f n : Nat) (h : n < 10) : digitsLE (f + 1) n = [n] := by
  simp [digitsLE, h]

theorem digitsLE_big (f n : Nat) (h : 10 ≤ n) :
    digitsLE (f + 1) n = (n % 10) :: digitsLE f (n / 10) := by
  simp [digitsLE, Nat.not_lt.2 h]

theorem decDigits_lt10 (n : Nat) (h : n < 10) : decDigits n = [n] := by
  simp [decDigits, digitsLE_small n n h]

theorem decDigits_lt100 (n : Nat) (h1 : 10 ≤ n) (h2 : n < 100) :
    decDigits n = [n / 10, n % 10] := by
  obtain ⟨f, rfl⟩ : ∃ f, n = f + 1 := ⟨n - 1, by omega⟩
  simp only [decDigits]
  rw [digitsLE_big _ _ h1, digitsLE_small _ _ (by omega)]
  rfl

theorem decDigits_lt1000 (n : Nat) (h1 : 100 ≤ n) (h2 : n < 1000) :
    decDigits n = [n / 100, n / 10 % 10, n % 10] := by
  obtain ⟨f, rfl⟩ : ∃ f, n = f + 2 := ⟨n - 2, by omega⟩
  simp only [decDigits]
  rw [digitsLE_big _ _ (by omega), digitsLE_big _ _ (by omega), digitsLE_small _ _ (by omega)]
  simp only [List.reverse_cons, List.reverse_nil, List.nil_append, List.cons_append,
    List.singleton_append, Nat.div_div_eq_div_mul]

theorem decDigits_lt10000 (n : Nat) (h1 : 1000 ≤ n) (h2 : n < 10000) :
    decDigits n = [n / 1000, n / 100 % 10, n / 10 % 10, n % 10] := by
  obtain ⟨f, rfl⟩ : ∃ f, n = f + 3 := ⟨n - 3, by omega⟩
  simp only [decDigits]
  rw [digitsLE_big _ _ (by omega), digitsLE_big _ _ (by omega), digitsLE_big _ _ (by omega),
    digitsLE_small _ _ (by omega)]
  simp only [List.reverse_cons, List.reverse_nil, List.nil_append, List.cons_append,
    List.singleton_append, Nat.div_div_eq_div_mul]

theorem appendInt_two (n : Nat) (h : n < 100) : appendInt (n : Int) 2 = twoDigits n := by
  have hneg : ¬ ((n : Int) < 0) := by omega
  simp only [appendInt, hneg, if_false, Int.natAbs_ofNat, List.nil_append, twoDigits]
  by_cases h1 : n < 10
  · rw [decDigits_lt10 n h1]
    have e1 : n / 10 % 10 = 0 := by omega
    have e2 : n % 10 = n := by omega
    rw [e1, e2]
    rfl
  · rw [decDigits_lt100 n (by omega) h]
    have e1 : n / 10 % 10 = n / 10 := by omega
    rw [e1]
    rfl

theorem appendInt_four (n : Nat) (h : n < 10000) : appendInt (n : Int) 4 = fourDigits n := by
  have hneg : ¬ ((n : Int) < 0) := by omega
  simp only [appendInt, hneg, if_false, Int.natAbs_ofNat, List.nil_append, fourDigits]
  by_cases h1 : n < 10
  · rw [decDigits_lt10 n h1]
    have e1 : n / 1000 % 10 = 0 := by omega
    have e2 : n / 100 % 10 = 0 := by omega
    have e3 : n / 10 % 10 = 0 := by omega
    have e4 : n % 10 = n := by omega
    rw [e1, e2, e3, e4]
    rfl
  by_cases h2 : n < 100
  · rw [decDigits_lt100 n (by omega) h2]
    have e1 : n / 1000 % 10 = 0 := by omega
    have e2 : n / 100 % 10 = 0 := by omega
    have e3 : n / 10 % 10 = n / 10 := by omega
    rw [e1, e2, e3]
    rfl
  by_cases h3 : n < 1000
  · rw [decDigits_lt1000 n (by omega) h3]
    have e1 : n / 1000 % 10 = 0 := by omega
    have e2 : n / 100 % 10 = n / 100 := by omega
    rw [e1, e2]
    rfl
  · rw [decDigits_lt10000 n (by omega) h]
    have e1 : n / 1000 % 10 = n / 1000 := by omega
    rw [e1]
    rfl

theorem archiveLayout_chunks :
    layoutChunks archiveLayout.length archiveLayout.toList =
      [Chunk.lit 'b', Chunk.lit 'a', Chunk.lit 'c', Chunk.lit 'k', Chunk.lit 'u', Chunk.lit 'p',
       Chunk.lit '-', Chunk.stdLongYear, Chunk.lit '-', Chunk.stdZeroMonth, Chunk.lit '-',
       Chunk.stdZeroDay, Chunk.lit '-', Chunk.stdHour, Chunk.lit '-', Chunk.stdZeroMinute,
       Chunk.lit '-', Chunk.stdZeroSecond, Chunk.lit '.', Chunk.lit 't', Chunk.lit 'a',
       Chunk.lit 'r', Chunk.lit '.', Chunk.lit 'g', Chunk.lit 'z'] := by
  decide

theorem Format_archiveLayout (t : Time) :
    t.Format archiveLayout = some (String.mk ("backup-".toList ++ appendInt t.year 4 ++ ['-']
      ++ appendInt t.month 2 ++ ['-'] ++ appendInt t.day 2 ++ ['-'] ++ appendInt t.hour 2 ++ ['-']
      ++ appendInt t.minute 2 ++ ['-'] ++ appendInt t.second 2 ++ ".tar.gz".toList)) := by
  simp only [Time.Format, archiveLayout_chunks, renderChunks, Chunk.render, Option.map_some',
    Option.some.injEq]
  apply String.ext
  simp [String.toList]

theorem Format_archiveLayout_spec (t : Time) (hv : t.valid) (hy0 : 0 ≤ t.year)
    (hy1 : t.year ≤ 9999) : t.Format archiveLayout = some (specArchiveName t) := by
  rw [Format_archiveLayout]
  obtain ⟨y, hy⟩ : ∃ y : Nat, t.year = (y : Int) := ⟨t.year.toNat, by omega⟩
  unfold Time.valid at hv
  rw [hy, appendInt_four y (by omega), appendInt_two _ (by omega), appendInt_two _ (by omega),
    appendInt_two _ (by omega), appendInt_two _ (by omega), appendInt_two _ (by omega)]
  simp only [specArchiveName, hy, Int.natAbs_ofNat]

/-! ## Progress and termination of the pipeline -/

theorem Pipe.received_mem {ρ : Type} {shards : List (Shard ρ)} {s : Pipe ρ} (hs : s.Inv shards)
    (p : Nat × ρ) (hp : p ∈ s.received) :
    ∃ sh, shards[p.1]? = some sh ∧ some p.2 ∈ sh.rows := by
  have hlt := hs.recv_lt p hp
  have hle := hs.launched_le
  have h1 : p.1 < shards.length := by omega
  have h2 : p.1 < s.pending.length := by rw [hs.len_pending]; exact hlt
  refine ⟨shards[p.1], List.getElem?_eq_getElem h1, ?_⟩
  have := hs.rows_eq p.1 shards[p.1] s.pending[p.1] (List.getElem?_eq_getElem h1)
    (List.getElem?_eq_getElem h2)
  rw [← this]
  apply List.mem_append_left
  rw [List.mem_map]
  refine ⟨p.2, ?_, rfl⟩
  simp only [rowsOf, List.mem_map, List.mem_filter, decide_eq_true_eq]
  exact ⟨p, ⟨hp, rfl⟩, rfl⟩

theorem Pipe.progress {ρ : Type} {shards : List (Shard ρ)} {s : Pipe ρ} (hs : s.Inv shards)
    (hf : s.fatal = false) (hd : s.consumerDone = false) :
    ∃ a t, s.step shards a = some t := by
  have hnp := hs.no_panic
  have hg : ¬ (s.fatal = true ∨ s.panicked = true) := by simp [hf, hnp]
  by_cases hl : s.launched < shards.length
  · refine ⟨Action.launch, ?_⟩
    simp only [Pipe.step, if_neg hg, List.getElem?_eq_getElem hl]
    split
    · exact ⟨_, rfl⟩
    · exact ⟨_, rfl⟩
  have hN : s.launched = shards.length := by
    have := hs.launched_le
    omega
  by_cases hc : 0 < s.live.count true
  · rw [List.count_pos_iff] at hc
    obtain ⟨i, hi⟩ := List.mem_iff_getElem?.1 hc
    have hil : i < s.live.length := (List.getElem?_eq_some_iff.1 hi).1
    have hip : i < s.pending.length := by rw [hs.len_pending, ← hs.len_live]; exact hil
    have hopen : s.closed = false := by
      cases hcl : s.closed with
      | false => rfl
      | true =>
        have := (hs.closed_imp hcl).2
        rw [hs.wg_eq] at this
        have := count_true_pos s.live i hi
        omega
    have hwg : s.wg ≠ 0 := by
      rw [hs.wg_eq]
      have := count_true_pos s.live i hi
      omega
    refine ⟨Action.fetcher i, ?_⟩
    simp only [Pipe.step, if_neg hg, hi, ne_eq, not_true_eq_false, if_false,
      List.getElem?_eq_getElem hip]
    cases hp : s.pending[i] with
    | nil =>
      simp only [if_neg hwg]
      exact ⟨_, rfl⟩
    | cons x rest =>
      cases x with
      | none => exact ⟨_, rfl⟩
      | some r =>
        simp only [hopen, Bool.false_eq_true, if_false, hN, hd, and_self, if_true]
        exact ⟨_, rfl⟩
  · have hw : s.wg = 0 := by rw [hs.wg_eq]; omega
    cases hcd : s.closerDone with
    | false =>
      have hopen : s.closed = false := by rw [← hs.closer_eq]; exact hcd
      refine ⟨Action.closer, ?_⟩
      simp only [Pipe.step, if_neg hg, hN, hcd, hw, and_self, if_true, hopen,
        Bool.false_eq_true, if_false]
      exact ⟨_, rfl⟩
    | true =>
      have hcl : s.closed = true := by rw [← hs.closer_eq]; exact hcd
      refine ⟨Action.consumerEnd, ?_⟩
      simp only [Pipe.step, if_neg hg, hN, hcl, hd, and_self, if_true]
      exact ⟨_, rfl⟩

theorem Pipe.fuel_step {ρ : Type} (shards : List (Shard ρ)) (s t : Pipe ρ) (a : Action)
    (h : s.step shards a = some t) : Pipe.fuel shards t < Pipe.fuel shards s := by
  cases a with
  | launch =>
    simp only [Pipe.step] at h
    split at h
    · simp at h
    rename_i hg
    simp only [not_or, Bool.not_eq_true] at hg
    split at h
    · simp at h
    rename_i sh hsh
    have hlt : s.launched < shards.length := (List.getElem?_eq_some_iff.1 hsh).1
    split at h
    · simp only [Option.some.injEq] at h
      subst h
      simp only [Pipe.fuel, hg.1, Bool.false_eq_true, if_false, if_true]
      omega
    · simp only [Option.some.injEq] at h
      subst h
      have hd : shards.drop s.launched = sh :: shards.drop (s.launched + 1) := by
        rw [List.drop_eq_getElem_cons hlt]
        congr 1
        have := List.getElem?_eq_getElem hlt
        rw [hsh] at this
        simpa using this.symm
      simp only [Pipe.fuel, hd, List.map_append, List.sum_append, List.map_cons, List.sum_cons,
        List.map_nil, List.sum_nil, List.count_append, List.count_singleton_self]
      omega
  | fetcher i =>
    simp only [Pipe.step] at h
    split at h
    · simp at h
    rename_i hg
    simp only [not_or, Bool.not_eq_true] at hg
    split at h
    · simp at h
    rename_i hlive
    simp only [ne_eq, Decidable.not_not] at hlive
    have hil : i < s.live.length := (List.getElem?_eq_some_iff.1 hlive).1
    have hpos := count_true_pos s.live i hlive
    split at h
    · simp at h
    · split at h
      · simp only [Option.some.injEq] at h
        subst h
        simp only [Pipe.fuel, hg.2, Bool.false_eq_true, if_false, if_true]
        omega
      · simp only [Option.some.injEq] at h
        subst h
        have hg2 : s.live[i] = true := by
          have := List.getElem?_eq_getElem hil
          rw [hlive] at this
          simpa using this.symm
        have hc : (s.live.set i false).count true = s.live.count true - 1 := by
          rw [List.count_set _ _ _ _ hil]
          simp [hg2]
        simp only [Pipe.fuel, hc]
        omega
    · simp only [Option.some.injEq] at h
      subst h
      simp only [Pipe.fuel, hg.1, Bool.false_eq_true, if_false, if_true]
      omega
    · rename_i r rest hp
      split at h
      · simp only [Option.some.injEq] at h
        subst h
        simp only [Pipe.fuel, hg.2, Bool.false_eq_true, if_false, if_true]
        omega
      split at h
      · simp only [Option.some.injEq] at h
        subst h
        have := sum_length_set s.pending i (some r) rest hp
        simp only [Pipe.fuel]
        omega
      · simp at h
  | closer =>
    simp only [Pipe.step] at h
    split at h
    · simp at h
    rename_i hg
    simp only [not_or, Bool.not_eq_true] at hg
    split at h
    · rename_i hc
      split at h
      · simp only [Option.some.injEq] at h
        subst h
        simp only [Pipe.fuel, hg.2, Bool.false_eq_true, if_false, if_true]
        omega
      · simp only [Option.some.injEq] at h
        subst h
        simp only [Pipe.fuel, hc.2.1, Bool.false_eq_true, if_false, if_true]
        omega
    · simp at h
  | consumerEnd =>
    simp only [Pipe.step] at h
    split at h
    · simp at h
    split at h
    · rename_i hc
      simp only [Option.some.injEq] at h
      subst h
      simp only [Pipe.fuel, hc.2.2, Bool.false_eq_true, if_false, if_true]
      omega
    · simp at h

theorem Pipe.fuel_exec {ρ : Type} (shards : List (Shard ρ)) (sched : List Action) :
    ∀ s t : Pipe ρ, Pipe.exec shards s sched = some t →
      sched.length + Pipe.fuel shards t ≤ Pipe.fuel shards s := by
  induction sched with
  | nil =>
    intro s t h
    simp only [Pipe.exec, Option.some.injEq] at h
    subst h
    simp
  | cons a as ih =>
    intro s t h
    simp only [Pipe.exec] at h
    split at h
    · simp at h
    · rename_i s1 h1
      have := ih s1 t h
      have := Pipe.fuel_step shards s s1 a h1
      simp only [List.length_cons]
      omega

theorem Pipe.fuel_init {ρ : Type} (shards : List (Shard ρ)) :
    Pipe.fuel shards (Pipe.init ρ) = (shards.map (fun sh => sh.rows.length + 2)).sum + 4 := by
  simp [Pipe.fuel, Pipe.init]

/-! ## The properties of the specification -/

theorem head_userLine (p : Nat × UserRow) : (userLine (mkUser p)).head? = some (Itoa p.1) := rfl

theorem head_orderLine (p : Nat × OrderRow) : (orderLine (mkOrder p)).head? = some (Itoa p.1) :=
  rfl

/-- C10: in every state that any interleaving of one fetcher over any shard
list reaches: no goroutine has panicked (no send on a closed channel, no
second close); the channel has been closed at most once; no send and no
`fetchers.Done()` comes after the close; once the channel is closed it has
been closed exactly once, every shard has been started, every fetcher has
finished and the records received are exactly the rows of all shards; the
consumer loop ends only on the closed channel; a run that has not ended can
always take a step, and no run is longer than the stated bound. -/
theorem channel_closed_once_after_all_sends {ρ : Type} (shards : List (Shard ρ))
    (sched : List Action) (s : Pipe ρ)
    (h : Pipe.exec shards (Pipe.init ρ) sched = some s) :
    s.panicked = false ∧
    closeCount s.trace ≤ 1 ∧
    sendsFirst s.trace = true ∧
    donesFirst s.trace = true ∧
    (s.closed = true →
      closeCount s.trace = 1 ∧ s.launched = shards.length ∧ s.wg = 0 ∧
      (∀ l ∈ s.pending, l = []) ∧ (∀ b ∈ s.live, b = false) ∧
      s.received.Perm (taggedFrom 0 shards)) ∧
    (s.consumerDone = true → s.closed = true) ∧
    (s.fatal = false → s.consumerDone = false → ∃ a t, s.step shards a = some t) ∧
    sched.length ≤ (shards.map (fun sh => sh.rows.length + 2)).sum + 4 := by
  have hs := Pipe.inv_of_exec shards sched s h
  refine ⟨hs.no_panic, ?_, hs.sends_first, hs.dones_first, ?_, hs.done_closed,
    fun hf hd => Pipe.progress hs hf hd, ?_⟩
  · rw [hs.close_count]
    split <;> omega
  · intro hc
    refine ⟨?_, (hs.closed_imp hc).1, (hs.closed_imp hc).2, ?_, ?_, Pipe.closed_perm hs hc⟩
    · rw [hs.close_count, if_pos hc]
    · intro l hl
      obtain ⟨n, hn⟩ := List.mem_iff_getElem?.1 hl
      have hnl : n < s.pending.length := (List.getElem?_eq_some_iff.1 hn).1
      have := Pipe.closed_pending_nil hs hc n (by rw [← hs.len_pending]; exact hnl)
      rw [hn] at this
      simp only [Option.some.injEq] at this
      exact this
    · intro b hb
      have hw := (hs.closed_imp hc).2
      rw [hs.wg_eq] at hw
      cases b with
      | false => rfl
      | true =>
        have := List.count_pos_iff.2 hb
        omega
  · have := Pipe.fuel_exec shards sched _ s h
    rw [Pipe.fuel_init] at this
    omega

theorem filter_shard_rows {ρ : Type} (f : Nat × ρ → csvLine)
    (hf : ∀ p, (f p).head? = some (Itoa p.1)) (i : Nat) (l : List (Nat × ρ)) :
    (l.map f).filter (fun row => decide (row.head? = some (Itoa i)))
      = (rowsOf i l).map (fun r => f (i, r)) := by
  rw [List.filter_map]
  have : ((fun row : csvLine => decide (row.head? = some (Itoa i))) ∘ f)
      = fun p : Nat × ρ => decide (p.1 = i) := by
    funext p
    simp only [Function.comp, hf p, Option.some.injEq]
    by_cases hp : p.1 = i
    · simp [hp]
    · have : Itoa (p.1 : Int) ≠ Itoa (i : Int) := by
        intro e
        have := Itoa_injective _ _ e
        exact hp (by exact_mod_cast this)
      simp [hp, this]
  rw [this, filter_fst_eq, List.map_map]
  rfl

/-! ## The channel in the example, and the failures that end the run -/

/-- The users pipeline of `exampleWorld` under `exampleUsersSchedule`: the
channel is closed once. -/
theorem channel_closed_once_after_all_sends_witness :
    Pipe.exec (usersShards exampleWorld.databases) (Pipe.init UserRow) exampleUsersSchedule
      = some exampleUsersPipe ∧
    closeCount exampleUsersPipe.trace ≤ 1 ∧
    (exampleUsersPipe.closed = true → closeCount exampleUsersPipe.trace = 1) :=
  ⟨by decide,
   (channel_closed_once_after_all_sends (usersShards exampleWorld.databases)
      exampleUsersSchedule exampleUsersPipe (by decide)).2.1,
   fun hc => ((channel_closed_once_after_all_sends (usersShards exampleWorld.databases)
      exampleUsersSchedule exampleUsersPipe (by decide)).2.2.2.2.1 hc).1⟩

theorem Pipe.closed_no_failure {ρ : Type} {shards : List (Shard ρ)} {s : Pipe ρ}
    (hs : s.Inv shards) (hc : s.closed = true) (sh : Shard ρ) (hsh : sh ∈ shards) :
    sh.openErr = false ∧ sh.queryErr = false ∧ none ∉ sh.rows := by
  obtain ⟨i, hi⟩ := List.mem_iff_getElem?.1 hsh
  have hlt : i < shards.length := (List.getElem?_eq_some_iff.1 hi).1
  have hN := (hs.closed_imp hc).1
  obtain ⟨h1, h2⟩ := hs.launched_ok i sh (by omega) hi
  refine ⟨h1, h2, ?_⟩
  rw [← Pipe.closed_rows hs hc i sh hi]
  simp

/-- The part of C3 that holds: if for some shard the connection cannot be
opened, a query is rejected or a row fails to decode, then no interleaving
leads to "Archive done": every run that ends ends in `log.Fatalln`, before the
archive file is created. -/
theorem fetch_failure_aborts (w : World) (su so : List Action) (out : Outcome) (d : Database)
    (hd : d ∈ w.databases)
    (hbad : d.users.openErr = true ∨ d.users.queryErr = true ∨ none ∈ d.users.rows ∨
      d.sales.openErr = true ∨ d.sales.queryErr = true ∨ none ∈ d.sales.rows)
    (h : main w su so = some out) : out = Outcome.fatal false := by
  unfold main at h
  split at h
  · simpa using h.symm
  split at h
  · simpa using h.symm
  split at h
  · simp at h
  rename_i pu hpu
  have hiu := Pipe.inv_of_exec _ su pu hpu
  split at h
  · rename_i hp
    rw [hiu.no_panic] at hp
    simp at hp
  split at h
  · simpa using h.symm
  split at h
  · simp at h
  split at h
  · simpa using h.symm
  split at h
  · simp at h
  rename_i po hpo
  have hio := Pipe.inv_of_exec _ so po hpo
  split at h
  · rename_i hp
    rw [hio.no_panic] at hp
    simp at hp
  split at h
  · simpa using h.symm
  split at h
  · simp at h
  rename_i hdone
  simp only [not_or, Bool.not_eq_false] at hdone
  have hu := Pipe.closed_no_failure hiu (hiu.done_closed hdone.1) d.users
    (by simp only [usersShards, List.mem_map]; exact ⟨d, hd, rfl⟩)
  have ho := Pipe.closed_no_failure hio (hio.done_closed hdone.2) d.sales
    (by simp only [ordersShards, List.mem_map]; exact ⟨d, hd, rfl⟩)
  rcases hbad with hb | hb | hb | hb | hb | hb
  · rw [hu.1] at hb; simp at hb
  · rw [hu.2.1] at hb; simp at hb
  · exact absurd hb hu.2.2
  · rw [ho.1] at hb; simp at hb
  · rw [ho.2.1] at hb; simp at hb
  · exact absurd hb ho.2.2

/-- The part of C4 that holds: if the backup directory cannot be made or an
output file cannot be opened, every run that ends ends in `log.Fatalln`
before the archive file is created. -/
theorem output_open_failure_aborts (w : World) (su so : List Action) (out : Outcome)
    (hbad : w.mkdirErr = true ∨ w.usersOpenErr = true ∨ w.ordersOpenErr = true)
    (h : main w su so = some out) : out = Outcome.fatal false := by
  unfold main at h
  split at h
  · simpa using h.symm
  split at h
  · simpa using h.symm
  rename_i h1 h2
  split at h
  · simp at h
  rename_i pu hpu
  have hiu := Pipe.inv_of_exec _ su pu hpu
  split at h
  · rename_i hp
    rw [hiu.no_panic] at hp
    simp at hp
  split at h
  · simpa using h.symm
  split at h
  · simp at h
  split at h
  · simpa using h.symm
  rename_i h3
  rcases hbad with hb | hb | hb
  · exact absurd hb h1
  · exact absurd hb h2
  · exact absurd hb h3

/-- The empty shard list: the closer runs at once, the channel is closed
once and the consumer loop ends without a record. -/
theorem empty_list_closes_once (ρ : Type) :
    (Pipe.exec ([] : List (Shard ρ)) (Pipe.init ρ) [Action.closer, Action.consumerEnd]).map
      (fun s => (closeCount s.trace, s.consumerDone, s.received.length)) = some (1, true, 0) := by
  rfl

/-! ## The consumer loops and the bytes in the files -/

theorem csvBytes_append (a b : List csvLine) : csvBytes (a ++ b) = csvBytes a ++ csvBytes b := by
  simp [csvBytes]

theorem csvBytes_singleton (line : csvLine) : csvBytes [line] = recordBytes line := by
  simp [csvBytes]

theorem csvBytes_cons (line : csvLine) (l : List csvLine) :
    csvBytes (line :: l) = recordBytes line ++ csvBytes l := by
  simp [csvBytes]

theorem Write_cases (limit : Option Nat) (w : CsvWriter) (line : csvLine) :
    (w.Write limit line = w ∧ w.err = true) ∨
    (w.err = false ∧ (w.Write limit line).err = true ∧ (w.Write limit line).rows = w.rows ∧
      (w.Write limit line).stream = w.stream ++ recordBytes line) ∨
    (w.err = false ∧ (w.Write limit line).err = false ∧
      (w.Write limit line).rows = w.rows ++ [line] ∧
      (w.Write limit line).stream = w.stream ++ recordBytes line) := by
  unfold CsvWriter.Write
  by_cases he : w.err = true
  · left
    rw [if_pos he]
    exact ⟨rfl, he⟩
  · right
    rw [if_neg he]
    have he2 : w.err = false := by simpa using he
    simp only
    split
    · left
      exact ⟨he2, rfl, rfl, rfl⟩
    · right
      exact ⟨he2, rfl, rfl, rfl⟩

theorem Write_err_false (limit : Option Nat) (w : CsvWriter) (line : csvLine)
    (h : (w.Write limit line).err = false) :
    w.err = false ∧ (w.Write limit line).rows = w.rows ++ [line] ∧
    (w.Write limit line).stream = w.stream ++ recordBytes line := by
  rcases Write_cases limit w line with ⟨h1, h2⟩ | ⟨_, h2, _, _⟩ | ⟨h1, _, h3, h4⟩
  · rw [h1, h2] at h
    simp at h
  · rw [h2] at h
    simp at h
  · exact ⟨h1, h3, h4⟩

theorem Write_rows_mem (limit : Option Nat) (w : CsvWriter) (line row : csvLine)
    (h : row ∈ (w.Write limit line).rows) : row ∈ w.rows ∨ row = line := by
  rcases Write_cases limit w line with ⟨h1, _⟩ | ⟨_, _, h3, _⟩ | ⟨_, _, h3, _⟩
  · rw [h1] at h
    exact Or.inl h
  · rw [h3] at h
    exact Or.inl h
  · rw [h3] at h
    simpa using h

theorem Write_none (w : CsvWriter) (line : csvLine) (he : w.err = false) :
    w.Write none line = { rows := w.rows ++ [line], stream := w.stream ++ recordBytes line,
                          err := false } := by
  unfold CsvWriter.Write
  simp [he, beyondLimit]

theorem Write_stream_cases (limit : Option Nat) (w : CsvWriter) (line : csvLine) :
    (w.Write limit line).stream = w.stream ∨
    (w.Write limit line).stream = w.stream ++ recordBytes line := by
  rcases Write_cases limit w line with ⟨h1, _⟩ | ⟨_, _, _, h4⟩ | ⟨_, _, _, h4⟩
  · rw [h1]
    exact Or.inl rfl
  · exact Or.inr h4
  · exact Or.inr h4

theorem loop_count {α : Type} (limit : Option Nat) (f : α → csvLine) (xs : List α) :
    ∀ st : Sink, (xs.foldl (fun st x =>
      ({ count := st.count + 1, writer := st.writer.Write limit (f x) } : Sink)) st).count
      = st.count + xs.length := by
  induction xs with
  | nil => intro st; rfl
  | cons x xs ih =>
    intro st
    rw [List.foldl_cons, ih]
    simp only [List.length_cons]
    omega

theorem loop_rows {α : Type} (limit : Option Nat) (f : α → csvLine) (xs : List α) :
    ∀ st : Sink, (xs.foldl (fun st x =>
      ({ count := st.count + 1, writer := st.writer.Write limit (f x) } : Sink)) st).writer.err
        = false →
      st.writer.err = false ∧
      (xs.foldl (fun st x =>
        ({ count := st.count + 1, writer := st.writer.Write limit (f x) } : Sink)) st).writer.rows
        = st.writer.rows ++ xs.map f ∧
      (xs.foldl (fun st x =>
        ({ count := st.count + 1, writer := st.writer.Write limit (f x) } : Sink)) st).writer.stream
        = st.writer.stream ++ csvBytes (xs.map f) := by
  induction xs with
  | nil => intro st h; exact ⟨h, by simp, by simp [csvBytes]⟩
  | cons x xs ih =>
    intro st h
    rw [List.foldl_cons] at h ⊢
    obtain ⟨h1, h2, h3⟩ := ih _ h
    obtain ⟨h4, h5, h6⟩ := Write_err_false limit st.writer (f x) h1
    refine ⟨h4, ?_, ?_⟩
    · rw [h2, h5]
      simp
    · rw [h3, h6, List.map_cons, csvBytes_cons]
      simp

theorem loop_rows_mem {α : Type} (limit : Option Nat) (f : α → csvLine) (xs : List α) :
    ∀ (st : Sink) (row : csvLine), row ∈ (xs.foldl (fun st x =>
      ({ count := st.count + 1, writer := st.writer.Write limit (f x) } : Sink)) st).writer.rows →
      row ∈ st.writer.rows ∨ ∃ x ∈ xs, row = f x := by
  induction xs with
  | nil => intro st row h; exact Or.inl h
  | cons x xs ih =>
    intro st row h
    rw [List.foldl_cons] at h
    rcases ih _ row h with h1 | ⟨y, hy, hr⟩
    · rcases Write_rows_mem limit st.writer (f x) row h1 with h2 | h2
      · exact Or.inl h2
      · exact Or.inr ⟨x, List.mem_cons_self _ _, h2⟩
    · exact Or.inr ⟨y, List.mem_cons_of_mem _ hy, hr⟩

theorem loop_err {α : Type} (limit : Option Nat) (f : α → csvLine) (xs : List α) :
    ∀ st : Sink, st.writer.err = true → (xs.foldl (fun st x =>
      ({ count := st.count + 1, writer := st.writer.Write limit (f x) } : Sink)) st).writer
        = st.writer := by
  induction xs with
  | nil => intro st _; rfl
  | cons x xs ih =>
    intro st he
    have hw : st.writer.Write limit (f x) = st.writer := by
      unfold CsvWriter.Write
      rw [if_pos he]
    rw [List.foldl_cons, ih _ (by rw [hw]; exact he)]
    exact hw

theorem loop_stream_initial {α : Type} (limit : Option Nat) (f : α → csvLine) (xs : List α) :
    ∀ st : Sink, (xs.foldl (fun st x =>
      ({ count := st.count + 1, writer := st.writer.Write limit (f x) } : Sink)) st).writer.stream
        <+: st.writer.stream ++ csvBytes (xs.map f) := by
  induction xs with
  | nil => intro st; simp [csvBytes]
  | cons x xs ih =>
    intro st
    rw [List.foldl_cons]
    rcases Write_cases limit st.writer (f x) with ⟨h1, h2⟩ | ⟨_, _, _, h4⟩ | ⟨_, _, _, h4⟩
    · rw [loop_err limit f xs _ (by rw [h1]; exact h2), h1]
      exact List.prefix_append _ _
    · have := ih { count := st.count + 1, writer := st.writer.Write limit (f x) }
      rw [h4, List.append_assoc] at this
      rw [List.map_cons, csvBytes_cons]
      exact this
    · have := ih { count := st.count + 1, writer := st.writer.Write limit (f x) }
      rw [h4, List.append_assoc] at this
      rw [List.map_cons, csvBytes_cons]
      exact this

theorem loop_none {α : Type} (f : α → csvLine) (xs : List α) :
    ∀ st : Sink, st.writer.err = false → (xs.foldl (fun st x =>
      ({ count := st.count + 1, writer := st.writer.Write none (f x) } : Sink)) st).writer
        = { rows := st.writer.rows ++ xs.map f,
            stream := st.writer.stream ++ csvBytes (xs.map f), err := false } := by
  induction xs with
  | nil =>
    intro st he
    obtain ⟨count, ⟨rows, stream, err⟩⟩ := st
    simp only at he
    subst he
    simp [csvBytes]
  | cons x xs ih =>
    intro st he
    rw [List.foldl_cons, ih _ (by rw [Write_none _ _ he])]
    rw [Write_none _ _ he, List.map_cons, csvBytes_cons]
    simp

theorem Flush_err_false (limit : Option Nat) (w : CsvWriter)
    (h : (w.Flush limit).err = false) :
    w.err = false ∧ w.Flush limit = w ∧ (w.Flush limit).disk limit = w.stream := by
  unfold CsvWriter.Flush at h ⊢
  by_cases he : w.err = true
  · rw [if_pos he] at h
    rw [he] at h
    simp at h
  rw [if_neg he] at h ⊢
  by_cases hb : beyondLimit limit w.stream.length = true
  · rw [if_pos hb] at h
    simp at h
  rw [if_neg hb] at h ⊢
  refine ⟨h, rfl, ?_⟩
  cases limit with
  | none => rfl
  | some b =>
    simp only [beyondLimit, decide_eq_true_eq, not_lt] at hb
    simp only [CsvWriter.disk]
    exact List.take_of_length_le hb

theorem Flush_stream (limit : Option Nat) (w : CsvWriter) :
    (w.Flush limit).stream = w.stream ∧ (w.Flush limit).rows = w.rows := by
  unfold CsvWriter.Flush
  split
  · exact ⟨rfl, rfl⟩
  · split
    · exact ⟨rfl, rfl⟩
    · exact ⟨rfl, rfl⟩

theorem disk_initial (limit : Option Nat) (w : CsvWriter) : w.disk limit <+: w.stream := by
  cases limit with
  | none => exact List.prefix_refl _
  | some b => exact List.take_prefix _ _

/-! ## Runs of `main` that reach the end -/

theorem archiveStep_success (w : World) (us os : Sink) (r : Report)
    (h : archiveStep w us os = some (Outcome.success r)) :
    ∃ name tw1,
      (w.now Stage.archiving).Format archiveLayout = some name ∧
      w.createErr = false ∧
      addFileToArchive (fileSysAfter w (Path.join (backupDir w) "users.csv")
        (Path.join (backupDir w) "sales.csv") ((us.writer.Flush w.usersLimit).disk w.usersLimit)
        ((os.writer.Flush w.ordersLimit).disk w.ordersLimit)) []
        (Path.join (backupDir w) "users.csv") = (tw1, none) ∧
      addFileToArchive (fileSysAfter w (Path.join (backupDir w) "users.csv")
        (Path.join (backupDir w) "sales.csv") ((us.writer.Flush w.usersLimit).disk w.usersLimit)
        ((os.writer.Flush w.ordersLimit).disk w.ordersLimit)) tw1
        (Path.join (backupDir w) "sales.csv") = (r.archive, none) ∧
      r = { usersCount := us.count, ordersCount := os.count,
            usersCsv := us.writer.Flush w.usersLimit,
            ordersCsv := os.writer.Flush w.ordersLimit,
            usersDisk := (us.writer.Flush w.usersLimit).disk w.usersLimit,
            ordersDisk := (os.writer.Flush w.ordersLimit).disk w.ordersLimit,
            usersCsvPath := Path.join (backupDir w) "users.csv",
            ordersCsvPath := Path.join (backupDir w) "sales.csv",
            archivePath := Path.join (Path.join (backupDir w) "archive") name,
            archive := r.archive,
            archiveClosed := !(w.tarCloseErr || w.gzCloseErr || w.archiveCloseErr) } := by
  unfold archiveStep at h
  simp only at h
  split at h
  · simp at h
  rename_i name hname
  split at h
  · simp at h
  rename_i hcreate
  split at h
  · simp at h
  rename_i tw1 h1
  split at h
  · simp at h
  rename_i tw2 h2
  simp only [Option.some.injEq, Outcome.success.injEq] at h
  subst h
  exact ⟨name, tw1, hname, by simpa using hcreate, h1, h2, rfl⟩

theorem main_success (w : World) (su so : List Action) (r : Report)
    (h : main w su so = some (Outcome.success r)) :
    ∃ pu po,
      Pipe.exec (usersShards w.databases) (Pipe.init UserRow) su = some pu ∧
      Pipe.exec (ordersShards w.databases) (Pipe.init OrderRow) so = some po ∧
      pu.consumerDone = true ∧ po.consumerDone = true ∧
      archiveStep w (usersLoop w.usersLimit (pu.received.map mkUser))
        (ordersLoop w.ordersLimit (po.received.map mkOrder)) = some (Outcome.success r) := by
  unfold main at h
  split at h
  · simp at h
  split at h
  · simp at h
  split at h
  · simp at h
  rename_i pu hpu
  split at h
  · simp at h
  split at h
  · simp at h
  split at h
  · simp at h
  split at h
  · simp at h
  split at h
  · simp at h
  rename_i po hpo
  split at h
  · simp at h
  split at h
  · simp at h
  split at h
  · simp at h
  rename_i hdone
  simp only [not_or, Bool.not_eq_false] at hdone
  exact ⟨pu, po, hpu, hpo, hdone.1, hdone.2, h⟩

theorem main_success_parts (w : World) (su so : List Action) (r : Report)
    (h : main w su so = some (Outcome.success r)) :
    ∃ (pu : Pipe UserRow) (po : Pipe OrderRow),
      pu.Inv (usersShards w.databases) ∧ po.Inv (ordersShards w.databases) ∧
      pu.closed = true ∧ po.closed = true ∧
      r.usersCsv = (usersLoop w.usersLimit (pu.received.map mkUser)).writer.Flush w.usersLimit ∧
      r.ordersCsv
        = (ordersLoop w.ordersLimit (po.received.map mkOrder)).writer.Flush w.ordersLimit ∧
      r.usersDisk = r.usersCsv.disk w.usersLimit ∧
      r.ordersDisk = r.ordersCsv.disk w.ordersLimit ∧
      r.usersCount = pu.received.length ∧ r.ordersCount = po.received.length := by
  obtain ⟨pu, po, hpu, hpo, hdu, hdo, harch⟩ := main_success w su so r h
  have hiu := Pipe.inv_of_exec _ su pu hpu
  have hio := Pipe.inv_of_exec _ so po hpo
  obtain ⟨name, tw1, _, _, _, _, hr⟩ := archiveStep_success w _ _ r harch
  refine ⟨pu, po, hiu, hio, hiu.done_closed hdu, hio.done_closed hdo, ?_, ?_, ?_, ?_, ?_, ?_⟩
  · rw [hr]
  · rw [hr]
  · rw [hr]
  · rw [hr]
  · rw [hr]
    simp only [usersLoop]
    rw [loop_count]
    simp
  · rw [hr]
    simp only [ordersLoop]
    rw [loop_count]
    simp

/-- C8: every row the users consumer or the orders consumer has written, at
any point of any interleaving and whatever the file accepts, is the rendering
of a row of some shard `i` of the input list, and its first field, the
`shard_id`, is the decimal numeral of that index `i`, which is below the
number of shards; and the bytes in each file are the beginning of the
encoding of the records received, so the file holds nothing else. -/
theorem written_rows_carry_shard_index (dbs : List Database) (su so : List Action)
    (pu : Pipe UserRow) (po : Pipe OrderRow) (fu fo : Option Nat)
    (hu : Pipe.exec (usersShards dbs) (Pipe.init UserRow) su = some pu)
    (ho : Pipe.exec (ordersShards dbs) (Pipe.init OrderRow) so = some po) :
    (∀ row ∈ (usersLoop fu (pu.received.map mkUser)).writer.rows,
      ∃ (i : Nat) (d : Database) (u : UserRow), i < dbs.length ∧ dbs[i]? = some d ∧
        some u ∈ d.users.rows ∧ row = userLine (mkUser (i, u)) ∧
        row.head? = some (Itoa i)) ∧
    (∀ row ∈ (ordersLoop fo (po.received.map mkOrder)).writer.rows,
      ∃ (i : Nat) (d : Database) (o : OrderRow), i < dbs.length ∧ dbs[i]? = some d ∧
        some o ∈ d.sales.rows ∧ row = orderLine (mkOrder (i, o)) ∧
        row.head? = some (Itoa i)) ∧
    ((usersLoop fu (pu.received.map mkUser)).writer.Flush fu).disk fu
      <+: csvBytes ((pu.received.map mkUser).map userLine) ∧
    ((ordersLoop fo (po.received.map mkOrder)).writer.Flush fo).disk fo
      <+: csvBytes ((po.received.map mkOrder).map orderLine) := by
  have hiu := Pipe.inv_of_exec _ su pu hu
  have hio := Pipe.inv_of_exec _ so po ho
  refine ⟨?_, ?_, ?_, ?_⟩
  · intro row hrow
    rcases loop_rows_mem fu userLine _ _ row hrow with h | ⟨x, hx, rfl⟩
    · simp [csv_NewWriter] at h
    · rw [List.mem_map] at hx
      obtain ⟨p, hp, rfl⟩ := hx
      obtain ⟨sh, h1, h2⟩ := Pipe.received_mem hiu p hp
      simp only [usersShards, List.getElem?_map, Option.map_eq_some'] at h1
      obtain ⟨d, hd, rfl⟩ := h1
      exact ⟨p.1, d, p.2, (List.getElem?_eq_some_iff.1 hd).1, hd, h2, rfl, rfl⟩
  · intro row hrow
    rcases loop_rows_mem fo orderLine _ _ row hrow with h | ⟨x, hx, rfl⟩
    · simp [csv_NewWriter] at h
    · rw [List.mem_map] at hx
      obtain ⟨p, hp, rfl⟩ := hx
      obtain ⟨sh, h1, h2⟩ := Pipe.received_mem hio p hp
      simp only [ordersShards, List.getElem?_map, Option.map_eq_some'] at h1
      obtain ⟨d, hd, rfl⟩ := h1
      exact ⟨p.1, d, p.2, (List.getElem?_eq_some_iff.1 hd).1, hd, h2, rfl, rfl⟩
  · refine (disk_initial fu _).trans ?_
    rw [(Flush_stream fu _).1]
    have := loop_stream_initial fu userLine (pu.received.map mkUser)
      { count := 0, writer := csv_NewWriter }
    simpa [usersLoop, csv_NewWriter] using this
  · refine (disk_initial fo _).trans ?_
    rw [(Flush_stream fo _).1]
    have := loop_stream_initial fo orderLine (po.received.map mkOrder)
      { count := 0, writer := csv_NewWriter }
    simpa [ordersLoop, csv_NewWriter] using this

/-- C7 (as amended): the consumer loops write one record per record received
and nothing else (no header). A user becomes the fields `shard_id`,
`record_id`, `name`, an order the fields `shard_id`, `record_id`, `user_id`,
`amount`, in this order; the integers are written in decimal (reading the
numeral back gives the integer) and the name is unchanged; a finite amount is
a fixed-point decimal with exactly six digits after the point, and an amount
that is NaN or infinite is written `NaN`, `+Inf` or `-Inf`. On a disk that
takes every byte the file holds the encoding of these records, one after the
other, and no other byte. -/
theorem records_render_in_fixed_columns (us : List user) (os : List order) :
    (usersLoop none us).writer.rows = us.map userLine ∧
    (ordersLoop none os).writer.rows = os.map orderLine ∧
    (∀ u : user, userLine u = [Itoa u.DBID, Itoa u.ID, u.Name] ∧
      Atoi (Itoa u.DBID) = u.DBID ∧ Atoi (Itoa u.ID) = u.ID) ∧
    (∀ o : order, ∃ amount : String,
      orderLine o = [Itoa o.DBID, Itoa o.ID, Itoa o.UserID, amount] ∧
      Atoi (Itoa o.DBID) = o.DBID ∧ Atoi (Itoa o.ID) = o.ID ∧ Atoi (Itoa o.UserID) = o.UserID ∧
      match o.OrderAmount with
      | Float64.finite _ _ _ => isFixedPoint6 amount = true
      | Float64.inf false => amount = "+Inf"
      | Float64.inf true => amount = "-Inf"
      | Float64.nan => amount = "NaN") ∧
    ((usersLoop none us).writer.Flush none).disk none = csvBytes (us.map userLine) ∧
    ((ordersLoop none os).writer.Flush none).disk none = csvBytes (os.map orderLine) := by
  have hu : (usersLoop none us).writer
      = { rows := us.map userLine, stream := csvBytes (us.map userLine), err := false } := by
    simp only [usersLoop]
    rw [loop_none userLine us _ rfl]
    simp [csv_NewWriter]
  have ho : (ordersLoop none os).writer
      = { rows := os.map orderLine, stream := csvBytes (os.map orderLine), err := false } := by
    simp only [ordersLoop]
    rw [loop_none orderLine os _ rfl]
    simp [csv_NewWriter]
  refine ⟨?_, ?_, ?_, ?_, ?_, ?_⟩
  · rw [hu]
  · rw [ho]
  · intro u
    exact ⟨rfl, Atoi_Itoa _, Atoi_Itoa _⟩
  · intro o
    refine ⟨FormatFloat6 o.OrderAmount, rfl, Atoi_Itoa _, Atoi_Itoa _, Atoi_Itoa _, ?_⟩
    cases h : o.OrderAmount with
    | finite neg mant exp => exact FormatFloat6_fixed neg mant exp
    | inf neg => cases neg <;> rfl
    | nan => rfl
  · rw [hu]
    rfl
  · rw [ho]
    rfl

/-- C9 (as amended): in a run of `main` that reaches "Archive done", if the
clock read at the archiving step shows a year from 0 to 9999, the archive is
created in the directory `archive` of the backup directory under the name
`backup-YYYY-MM-DD-HH-MM-SS.tar.gz` made of the four-digit year and the
two-digit month, day, hour, minute and second of that reading; the reading at
the start of the run plays no part. -/
theorem archive_name_is_archiving_time (w : World) (su so : List Action) (r : Report)
    (hrun : main w su so = some (Outcome.success r))
    (hv : (w.now Stage.archiving).valid)
    (hy0 : 0 ≤ (w.now Stage.archiving).year) (hy1 : (w.now Stage.archiving).year ≤ 9999) :
    r.archivePath = Path.join (Path.join (backupDir w) "archive")
      (specArchiveName (w.now Stage.archiving)) := by
  obtain ⟨pu, po, _, _, _, _, harch⟩ := main_success w su so r hrun
  obtain ⟨name, tw1, hname, _, _, _, hr⟩ := archiveStep_success w _ _ r harch
  rw [Format_archiveLayout_spec _ hv hy0 hy1] at hname
  simp only [Option.some.injEq] at hname
  rw [hr, hname]

/-! ## The archive, the parts of the claims that hold, and the failing inputs -/

theorem addFileToArchive_nil (sys : FileSys) (tw tw1 : List TarEntry) (path : Path)
    (h : addFileToArchive sys tw path = (tw1, none)) (hstat : sys.statErr path = false) :
    sys.openErr path = false ∧ sys.headerErr path = false ∧ sys.copyErr path = none ∧
    tw1 = tw ++ [⟨storedHeader ⟨path, (sys.content path).length, sys.mode path,
      sys.modTime path⟩, sys.content path⟩] := by
  unfold addFileToArchive at h
  by_cases ho : sys.openErr path = true
  · rw [if_pos ho] at h
    simp at h
  rw [if_neg ho, if_pos hstat] at h
  simp only at h
  by_cases hh : sys.headerErr path = true
  · rw [if_pos hh] at h
    simp at h
  rw [if_neg hh] at h
  cases hc : sys.copyErr path with
  | some k =>
    rw [hc] at h
    simp at h
  | none =>
    rw [hc] at h
    simp only [Prod.mk.injEq, and_true] at h
    exact ⟨by simpa using ho, by simpa using hh, rfl, h.symm⟩

/-- The part of C5 that holds: a failure to open the file, to write the
header or to copy the content is returned as an error. -/
theorem addFileToArchive_returns_error (sys : FileSys) (tw : List TarEntry) (path : Path)
    (hbad : sys.openErr path = true ∨
      (sys.statErr path = false ∧ (sys.headerErr path = true ∨ sys.copyErr path ≠ none))) :
    (addFileToArchive sys tw path).2 ≠ none := by
  unfold addFileToArchive
  by_cases ho : sys.openErr path = true
  · rw [if_pos ho]
    simp
  rw [if_neg ho]
  rcases hbad with hb | ⟨hs, hb⟩
  · exact absurd hb ho
  rw [if_pos hs]
  simp only
  by_cases hh : sys.headerErr path = true
  · rw [if_pos hh]
    simp
  rw [if_neg hh]
  rcases hb with hb | hb
  · exact absurd hb hh
  cases hc : sys.copyErr path with
  | none => exact absurd hc hb
  | some k => simp

/-- A `Write` that meets a full buffer on a disk that takes nothing returns
an error: the flush it forces fails. -/
theorem Write_error_when_buffer_full (w : CsvWriter) (line : csvLine) (he : w.err = false)
    (hfull : w.stream.length = bufSize) (hrec : recordBytes line ≠ []) :
    (w.Write (some 0) line).err = true ∧ (w.Write (some 0) line).rows = w.rows := by
  have hn : 0 < (recordBytes line).length := List.length_pos.2 hrec
  unfold CsvWriter.Write
  simp only [he, Bool.false_eq_true, if_false, List.length_append, hfull, beyondLimit, bufSize,
    decide_eq_true_eq]
  have h1 : 4096 ≤ 4096 * ((4096 + (recordBytes line).length - 1) / 4096) := by omega
  rw [if_pos ⟨h1, by omega, by omega⟩]
  exact ⟨rfl, rfl⟩

/-- The part of C1 that holds: in a run of `main` that reaches "Archive done"
and in which neither writer has recorded an error, under any interleaving of
the fetchers, each file holds exactly the encoding of as many records as the
queries of all shards returned rows, the two counts the run logs are these
sums, and the records of each file are, up to order, the rendered rows of all
shards, each once. -/
theorem rows_complete_when_no_write_error (w : World) (su so : List Action) (r : Report)
    (hrun : main w su so = some (Outcome.success r))
    (hu : r.usersCsv.err = false) (ho : r.ordersCsv.err = false) :
    r.usersCsv.rows.length = (w.databases.map (fun d => d.users.rows.length)).sum ∧
    r.ordersCsv.rows.length = (w.databases.map (fun d => d.sales.rows.length)).sum ∧
    r.usersCount = (w.databases.map (fun d => d.users.rows.length)).sum ∧
    r.ordersCount = (w.databases.map (fun d => d.sales.rows.length)).sum ∧
    r.usersCsv.rows.Perm
      ((taggedFrom 0 (usersShards w.databases)).map (fun p => userLine (mkUser p))) ∧
    r.ordersCsv.rows.Perm
      ((taggedFrom 0 (ordersShards w.databases)).map (fun p => orderLine (mkOrder p))) ∧
    r.usersDisk = csvBytes r.usersCsv.rows ∧ r.ordersDisk = csvBytes r.ordersCsv.rows := by
  obtain ⟨pu, po, hiu, hio, hcu, hco, eu, eo, du, dor, cu, co⟩ :=
    main_success_parts w su so r hrun
  rw [eu] at hu
  rw [eo] at ho
  obtain ⟨hu1, hu2, hu3⟩ := Flush_err_false _ _ hu
  obtain ⟨ho1, ho2, ho3⟩ := Flush_err_false _ _ ho
  obtain ⟨_, ru, su2⟩ := loop_rows w.usersLimit userLine _ _ hu1
  obtain ⟨_, ro, so2⟩ := loop_rows w.ordersLimit orderLine _ _ ho1
  have lu := Pipe.closed_length hiu hcu
  have lo := Pipe.closed_length hio hco
  simp only [usersShards, List.map_map, Function.comp_def] at lu
  simp only [ordersShards, List.map_map, Function.comp_def] at lo
  have ru2 : r.usersCsv.rows = (pu.received.map mkUser).map userLine := by
    rw [eu, hu2]
    simpa [csv_NewWriter, usersLoop] using ru
  have ro2 : r.ordersCsv.rows = (po.received.map mkOrder).map orderLine := by
    rw [eo, ho2]
    simpa [csv_NewWriter, ordersLoop] using ro
  have su3 : r.usersDisk = csvBytes ((pu.received.map mkUser).map userLine) := by
    rw [du, eu, hu3]
    simpa [csv_NewWriter, usersLoop] using su2
  have so3 : r.ordersDisk = csvBytes ((po.received.map mkOrder).map orderLine) := by
    rw [dor, eo, ho3]
    simpa [csv_NewWriter, ordersLoop] using so2
  refine ⟨?_, ?_, ?_, ?_, ?_, ?_, ?_, ?_⟩
  · rw [ru2, List.length_map, List.length_map, lu]
  · rw [ro2, List.length_map, List.length_map, lo]
  · rw [cu, lu]
  · rw [co, lo]
  · rw [ru2, List.map_map]
    exact (Pipe.closed_perm hiu hcu).map _
  · rw [ro2, List.map_map]
    exact (Pipe.closed_perm hio hco).map _
  · rw [su3, ru2]
  · rw [so3, ro2]

/-- The part of C2 that holds: in a run of `main` that reaches "Archive done"
and in which neither writer has recorded an error, under any interleaving of
the fetchers, for every shard index `i`: every row of the shard decoded, and
the records of `users.csv` (of `sales.csv`) whose `shard_id` field is `i` are,
in file order, exactly the rows the users query (the sales query) of shard `i`
returned, in the order it returned them. -/
theorem shard_order_kept_when_no_write_error (w : World) (su so : List Action) (r : Report)
    (i : Nat) (d : Database)
    (hrun : main w su so = some (Outcome.success r))
    (hu : r.usersCsv.err = false) (ho : r.ordersCsv.err = false)
    (hd : w.databases[i]? = some d) :
    d.users.rows = d.users.decoded.map some ∧
    r.usersCsv.rows.filter (fun row => decide (row.head? = some (Itoa i)))
      = d.users.decoded.map (fun u => userLine (mkUser (i, u))) ∧
    d.sales.rows = d.sales.decoded.map some ∧
    r.ordersCsv.rows.filter (fun row => decide (row.head? = some (Itoa i)))
      = d.sales.decoded.map (fun o => orderLine (mkOrder (i, o))) := by
  obtain ⟨pu, po, hiu, hio, hcu, hco, eu, eo, _, _, cu, co⟩ :=
    main_success_parts w su so r hrun
  rw [eu] at hu
  rw [eo] at ho
  obtain ⟨hu1, hu2, _⟩ := Flush_err_false _ _ hu
  obtain ⟨ho1, ho2, _⟩ := Flush_err_false _ _ ho
  obtain ⟨_, ru, _⟩ := loop_rows w.usersLimit userLine _ _ hu1
  obtain ⟨_, ro, _⟩ := loop_rows w.ordersLimit orderLine _ _ ho1
  have ru2 : r.usersCsv.rows = pu.received.map (fun p => userLine (mkUser p)) := by
    rw [eu, hu2]
    simpa [csv_NewWriter, usersLoop, Function.comp_def] using ru
  have ro2 : r.ordersCsv.rows = po.received.map (fun p => orderLine (mkOrder p)) := by
    rw [eo, ho2]
    simpa [csv_NewWriter, ordersLoop, Function.comp_def] using ro
  have hdu : (usersShards w.databases)[i]? = some d.users := by
    simp [usersShards, List.getElem?_map, hd]
  have hdo : (ordersShards w.databases)[i]? = some d.sales := by
    simp [ordersShards, List.getElem?_map, hd]
  have qu := Pipe.closed_rows hiu hcu i d.users hdu
  have qo := Pipe.closed_rows hio hco i d.sales hdo
  have du := decoded_of_map_some d.users _ qu
  have do2 := decoded_of_map_some d.sales _ qo
  refine ⟨?_, ?_, ?_, ?_⟩
  · rw [du]; exact qu.symm
  · rw [ru2, filter_shard_rows (fun p => userLine (mkUser p)) head_userLine, du]
  · rw [do2]; exact qo.symm
  · rw [ro2, filter_shard_rows (fun p => orderLine (mkOrder p)) head_orderLine, do2]

/-- The part of C6 that holds: in a run of `main` that reaches "Archive done"
and in which `Stat` succeeded on both output files, whatever the
interleavings of the two pipelines, the tar writer was handed exactly two
entries, first the one of the users file, then the one of the orders file;
the name of each is the path the file was written under, its size is the
size of the file, and its bytes are the bytes of the file. -/
theorem archive_entries_when_stat_succeeds (w : World) (su so : List Action) (r : Report)
    (hrun : main w su so = some (Outcome.success r))
    (hsu : w.sys.statErr r.usersCsvPath = false)
    (hso : w.sys.statErr r.ordersCsvPath = false) :
    r.usersCsvPath = Path.join (backupDir w) "users.csv" ∧
    r.ordersCsvPath = Path.join (backupDir w) "sales.csv" ∧
    r.archive =
      [ { header := { Name := r.usersCsvPath, Size := r.usersDisk.length,
                      Mode := w.sys.mode r.usersCsvPath,
                      ModTime := roundSecond (w.sys.modTime r.usersCsvPath) },
          data := r.usersDisk },
        { header := { Name := r.ordersCsvPath, Size := r.ordersDisk.length,
                      Mode := w.sys.mode r.ordersCsvPath,
                      ModTime := roundSecond (w.sys.modTime r.ordersCsvPath) },
          data := r.ordersDisk } ] := by
  obtain ⟨pu, po, _, _, _, _, harch⟩ := main_success w su so r hrun
  obtain ⟨name, tw1, _, _, h1, h2, hr⟩ := archiveStep_success w _ _ r harch
  have eu : r.usersCsvPath = Path.join (backupDir w) "users.csv" := by rw [hr]
  have eo : r.ordersCsvPath = Path.join (backupDir w) "sales.csv" := by rw [hr]
  have edu : r.usersDisk = ((usersLoop w.usersLimit (pu.received.map mkUser)).writer.Flush
      w.usersLimit).disk w.usersLimit := by rw [hr]
  have edo : r.ordersDisk = ((ordersLoop w.ordersLimit (po.received.map mkOrder)).writer.Flush
      w.ordersLimit).disk w.ordersLimit := by rw [hr]
  rw [eu] at hsu
  rw [eo] at hso
  have hne : Path.join (backupDir w) "sales.csv" ≠ Path.join (backupDir w) "users.csv" := by
    intro e
    simp only [Path.join.injEq, true_and] at e
    exact absurd e (by decide)
  obtain ⟨_, _, _, e1⟩ := addFileToArchive_nil _ _ _ _ h1 hsu
  obtain ⟨_, _, _, e2⟩ := addFileToArchive_nil _ _ _ _ h2 hso
  refine ⟨eu, eo, ?_⟩
  rw [e2, e1, eu, eo, edu, edo]
  simp [fileSysAfter, hne, storedHeader]

/-- The run of `exampleWorld` under the example interleavings. -/
theorem exampleWorld_run :
    main exampleWorld exampleUsersSchedule exampleOrdersSchedule
      = some (Outcome.success exampleReport) := by
  decide

/-- The run of `exampleWorld`: no writer has recorded an error, `Stat`
succeeds, and the three properties above apply. -/
theorem exampleWorld_run_is_complete :
    exampleReport.usersCount = (exampleWorld.databases.map (fun d => d.users.rows.length)).sum ∧
    exampleReport.usersCsv.rows.filter (fun row => decide (row.head? = some (Itoa (0 : Nat))))
      = (Shard.decoded ⟨false, false, [some (⟨1, "A"⟩ : UserRow), some ⟨2, "B"⟩], false⟩).map
          (fun u => userLine (mkUser (0, u))) ∧
    exampleReport.usersCsvPath = Path.join (backupDir exampleWorld) "users.csv" :=
  ⟨(rows_complete_when_no_write_error exampleWorld exampleUsersSchedule exampleOrdersSchedule
      exampleReport (by decide) (by decide) (by decide)).2.2.1,
   (shard_order_kept_when_no_write_error exampleWorld exampleUsersSchedule exampleOrdersSchedule
      exampleReport 0
      { dsn := "db0", users := ⟨false, false, [some ⟨1, "A"⟩, some ⟨2, "B"⟩], false⟩,
        sales := ⟨false, false, [], false⟩ } (by decide) (by decide) (by decide) (by decide)).2.1,
   (archive_entries_when_stat_succeeds exampleWorld exampleUsersSchedule exampleOrdersSchedule
      exampleReport (by decide) (by decide) (by decide)).1⟩

/-- The two pipelines of `exampleWorld` under the example interleavings: every
record written carries the index of its shard. -/
theorem written_rows_carry_shard_index_witness :
    Pipe.exec (usersShards exampleWorld.databases) (Pipe.init UserRow) exampleUsersSchedule
      = some exampleUsersPipe ∧
    Pipe.exec (ordersShards exampleWorld.databases) (Pipe.init OrderRow) exampleOrdersSchedule
      = some exampleOrdersPipe ∧
    ∀ row ∈ (usersLoop none (exampleUsersPipe.received.map mkUser)).writer.rows,
      ∃ (i : Nat) (d : Database) (u : UserRow), i < exampleWorld.databases.length ∧
        exampleWorld.databases[i]? = some d ∧ some u ∈ d.users.rows ∧
        row = userLine (mkUser (i, u)) ∧ row.head? = some (Itoa i) :=
  ⟨by decide, by decide,
   (written_rows_carry_shard_index exampleWorld.databases exampleUsersSchedule
      exampleOrdersSchedule exampleUsersPipe exampleOrdersPipe none none (by decide)
      (by decide)).1⟩

/-- The run of `exampleWorld`: the clock shows 09:05:07 at the start and
09:05:09 at the archiving step, and the archive is named after the latter. -/
theorem archive_name_is_archiving_time_witness :
    main exampleWorld exampleUsersSchedule exampleOrdersSchedule
      = some (Outcome.success exampleReport) ∧
    (exampleWorld.now Stage.archiving).valid ∧
    0 ≤ (exampleWorld.now Stage.archiving).year ∧
    (exampleWorld.now Stage.archiving).year ≤ 9999 ∧
    exampleReport.archivePath = Path.join (Path.join (backupDir exampleWorld) "archive")
      (specArchiveName (exampleWorld.now Stage.archiving)) :=
  ⟨by decide, by decide, by decide, by decide,
   archive_name_is_archiving_time exampleWorld exampleUsersSchedule exampleOrdersSchedule
      exampleReport (by decide) (by decide) (by decide) (by decide)⟩

/-- C9, the counterexample: with the clock at 10000-01-01 00:00:00 at the
archiving step the run succeeds and names the archive
`backup-10000-01-01-00-00-00.tar.gz`, with a five-digit year: 34 characters,
not the 33 of `backup-YYYY-MM-DD-HH-MM-SS.tar.gz`. -/
theorem five_digit_year_archive_name :
    (farFutureWorld.now Stage.archiving).valid ∧
    ((main farFutureWorld exampleUsersSchedule exampleOrdersSchedule).bind Outcome.report?).map
        Report.archivePath
      = some (Path.join (Path.join (backupDir farFutureWorld) "archive")
          "backup-10000-01-01-00-00-00.tar.gz") ∧
    ((main farFutureWorld exampleUsersSchedule exampleOrdersSchedule).bind Outcome.report?).map
        Report.archivePath
      ≠ some (Path.join (Path.join (backupDir farFutureWorld) "archive")
          (specArchiveName (farFutureWorld.now Stage.archiving))) ∧
    (specArchiveName (farFutureWorld.now Stage.archiving)).length = 33 ∧
    "backup-10000-01-01-00-00-00.tar.gz".length = 34 := by
  decide

/-- C1, the failing input: the queries return three users and the disk takes
eight bytes of `users.csv`. Every `Write` returns `nil` (the records are in
the buffer), `Flush` fails and nobody asks. The run reaches "Archive done" and
reports three users; the file holds `0,1,A`, a line feed and `1,`: one line,
not three. -/
theorem disk_full_run_reports_rows_not_in_file :
    (diskFullWorld.databases.map (fun d => d.users.rows.length)).sum = 3 ∧
    ((main diskFullWorld exampleUsersSchedule exampleOrdersSchedule).bind Outcome.report?).map
        (fun r => (r.usersCount, r.usersDisk, r.usersDisk.count 10))
      = some (3, utf8Bytes "0,1,A\n1,".toList, 1) := by
  decide

/-- C2, the failing input: the users query of shard 0 returns `(1, A)` and
`(2, B)` and the disk takes eight bytes of `users.csv`. The run reaches
"Archive done"; the file holds `0,1,A`, a line feed and `1,`, and the record
`0,2,B` of shard 0 is nowhere in it. -/
theorem disk_full_run_loses_shard_rows :
    diskFullWorld.databases[0]?.map (fun d => d.users.rows)
      = some [some ⟨1, "A"⟩, some ⟨2, "B"⟩] ∧
    ((main diskFullWorld exampleUsersSchedule exampleOrdersSchedule).bind Outcome.report?).map
        Report.usersDisk
      = some (utf8Bytes "0,1,A\n1,".toList) ∧
    ¬ (recordBytes (userLine (mkUser (0, ⟨2, "B"⟩))) <:+: utf8Bytes "0,1,A\n1,".toList) := by
  decide

/-- C3, the failing input: the iteration over the users of the only shard
stops on an error after one row (`rows.Err()` is not nil). The run does not
fail: it reaches "Archive done", reports one user and creates an archive with
both files. -/
theorem iteration_error_is_not_noticed :
    (truncatedWorld.databases.map (fun d => d.users.iterErr)) = [true] ∧
    ((main truncatedWorld (truncatedSchedule 1) (truncatedSchedule 0)).bind Outcome.report?).map
        (fun r => (r.usersCount, r.usersCsv.rows, r.archive.length))
      = some (1, [["0", "1", "A"]], 2) := by
  decide

/-- C4, the failing input: the disk takes eight bytes of `users.csv`. The
three calls of `Write` return `nil`, `Flush` fails and the writer records the
error, which nobody reads. The run does not abort: it reaches "Archive done",
reports three users, and archives a users file of eight bytes that ends
inside its second record. -/
theorem write_error_is_not_noticed :
    ((main diskFullWorld exampleUsersSchedule exampleOrdersSchedule).bind Outcome.report?).map
        (fun r => (r.usersCsv.err, r.usersCount, r.usersCsv.rows.length, r.usersDisk,
          r.archive.map TarEntry.data))
      = some (true, 3, 3, utf8Bytes "0,1,A\n1,".toList,
          [utf8Bytes "0,1,A\n1,".toList, utf8Bytes "1,5,1,2.500000\n".toList]) := by
  decide

/-- C5, the failing input: `file.Stat()` fails on a file that opens. The
function returns `nil` and has written neither a header nor content. -/
theorem stat_error_returns_nil :
    statFailSys.openErr (Path.given "users.csv") = false ∧
    statFailSys.statErr (Path.given "users.csv") = true ∧
    addFileToArchive statFailSys [] (Path.given "users.csv") = ([], none) := by
  decide

/-- C6, the failing input: `file.Stat()` fails on `users.csv`, which opens.
`addFileToArchive` returns `nil`, `checkErr` lets the run go on, and the run
reaches "Archive done" with an archive of one entry, the orders file. -/
theorem stat_failure_run_archives_one_file :
    statFailWorld.sys.openErr (Path.join (Path.given "/var/backup") "users.csv") = false ∧
    statFailWorld.sys.statErr (Path.join (Path.given "/var/backup") "users.csv") = true ∧
    ((main statFailWorld exampleUsersSchedule exampleOrdersSchedule).bind Outcome.report?).map
        (fun r => r.archive.map (fun e => e.header.Name))
      = some [Path.join (Path.given "/var/backup") "sales.csv"] := by
  decide

/-- The deferred `archiveGz.Close()` fails after "Archive done": the run still
ends as a success, with both entries handed to the tar writer and an archive
file that was not written out whole. -/
theorem close_error_is_not_noticed :
    ((main closeFailWorld exampleUsersSchedule exampleOrdersSchedule).bind Outcome.report?).map
        (fun r => (r.archive.length, r.archiveClosed))
      = some (2, false) := by
  decide

/-- C7, the counterexample: an order whose amount is NaN is written with the
amount field `NaN`, which is not a fixed-point decimal with six fractional
digits. -/
theorem nan_amount_is_not_fixed_point :
    (ordersLoop none [⟨0, 1, 1, Float64.nan⟩]).writer.rows = [["0", "1", "1", "NaN"]] ∧
    isFixedPoint6 "NaN" = false ∧
    (ordersLoop none [⟨0, 1, 1, Float64.inf false⟩]).writer.rows = [["0", "1", "1", "+Inf"]] ∧
    isFixedPoint6 "+Inf" = false := by
  decide

/-- The encoding of records, of characters outside ASCII, and the rounding of
a modification time, on small inputs. -/
theorem csvBytes_eval :
    csvBytes (usersLoop none [⟨0, 1, "A"⟩, ⟨0, 2, "B"⟩, ⟨1, 1, "C"⟩]).writer.rows
      = utf8Bytes "0,1,A\n0,2,B\n1,1,C\n".toList ∧
    csvBytes [["1", "a,b", " x", "say \"hi\""]]
      = utf8Bytes "1,\"a,b\",\" x\",\"say \"\"hi\"\"\"\n".toList ∧
    utf8Bytes [Char.ofNat 233, Char.ofNat 8364] = [195, 169, 226, 130, 172] ∧
    roundSecond 1793782800600000000 = 1793782801000000000 ∧
    roundSecond 1499999999 = 1000000000 := by
  decide

end GoMysqlBackup
